import Mathlib

/-!
# webgl_fonts: text layout (`textutils.js`) and subpixel coverage (`fshader.js`)

A shallow embedding of the layout functions `fontMetrics`, `charRect` and
`writeString` of `src/textutils.js` and of the GLSL functions
`estimateSubpixelCoverage` and `main` of `src/fshader.js`.

Conventions of the embedding.

* In the layout (`charRect`, `writeString`) and in the shader a JavaScript /
  GLSL number is an exact rational (`ℚ`): there rounding error of the binary
  floating point formats is not modelled, and neither are `NaN` and the
  infinities. `Math.round` is `⌊x + 1/2⌋`.
* A string is the list of its UTF-16 code units; `charCodeAt` past the end
  (JavaScript: `NaN`) is `none`.
* A JavaScript array of two numbers (`pos`) is a pair. `writeString` starts with
  `cpos = pos`, which makes `cpos` a second name of the caller's array, until the
  first glyph replaces `cpos` by the fresh array `rect.pos`. The state of the
  loop therefore keeps the content of the caller's array (`pos`) and an optional
  own array (`cpos`; `none` while `cpos` still is the caller's array).
* `vertexArray` is a list of numbers of fixed length (a `Float32Array` in
  `main.js`); the call returns its final content with the result.
* A `TypeError` (reading a field of `undefined`) is the result `none`.
* `fontMetrics` has two embeddings: `fontMetrics` in exact rationals, which the
  layout takes its scales from, and `fontMetricsJs` in binary64 arithmetic,
  where every operation rounds to the nearest double, overflows to an infinity
  and a division by zero gives `NaN` or an infinity. The statements on the
  x-height scale and on fonts with a zero divisor are about `fontMetricsJs`;
  `capScale` and `pixelSize` are the same in both.
* The shader `main` takes the texture and the built-ins `length` and `pow`,
  which are no rational functions, as fields of its input `Fragment`.
* Of `render` in `src/main.js` the embedding has the three assignments that
  read the subpixel selector; its value is a `String`.
-/

namespace WebglFonts

/-! ## Constants and data model -/

namespace CHAR_CODES
/-- Code of the question mark, which replaces characters the font lacks. -/
def QUESTION_MARK : Nat := 63
/-- Code of the space character. -/
def SPACE : Nat := 32
/-- Code of the line feed. -/
def NEWLINE : Nat := 10
end CHAR_CODES

/-- One entry of `font.chars`: the array the font generator writes, with one
field for each index of `CHAR_METRICS`. -/
structure CharMetrics where
  LEFT : ℚ
  TOP : ℚ
  RIGHT : ℚ
  BOTTOM : ℚ
  BEARING_X : ℚ
  BEARING_Y : ℚ
  ADVANCE_X : ℚ
  FLAGS : Nat
deriving DecidableEq

/-- The font asset, as far as the layout reads it. `chars` and `kerning` are the
JavaScript objects used as maps; `none` is an absent key. -/
structure Font where
  xHeight : ℚ
  descent : ℚ
  lineGap : ℚ
  falloff : ℚ
  glyphHeight : ℚ
  textureWidth : ℚ
  textureHeight : ℚ
  advanceXSpace : ℚ
  chars : Nat → Option CharMetrics
  kerning : Nat → Option (Nat → Option ℚ)

/-- The object returned by `fontMetrics`. -/
structure FontMetrics where
  capScale : ℚ
  lowScale : ℚ
  pixelSize : ℚ
  lineHeight : ℚ
  scaleTexturePxToMetrics : ℚ

/-- JavaScript `Math.round`: the nearest integer, a tie going up. -/
def mathRound (x : ℚ) : ℤ := ⌊x + 1 / 2⌋

/-! ## `fontMetrics` -/

/-- The function `fontMetrics` of `textutils.js`; `moreLineGap` is passed
explicitly (its default in the source is `0.0`). -/
def fontMetrics (font : Font) (pixelSize moreLineGap : ℚ) : FontMetrics :=
  let capScale : ℚ := (mathRound pixelSize : ℚ)
  let lowScale : ℚ := (mathRound (font.xHeight * capScale) : ℚ) / font.xHeight
  let lineHeight : ℚ := pixelSize * (1 - font.descent + font.lineGap + moreLineGap)
  let scaleTexturePxToMetrics : ℚ := (1 - font.descent) / font.glyphHeight
  FontMetrics.mk capScale lowScale pixelSize lineHeight scaleTexturePxToMetrics

/-! ## `charRect` -/

/-- The object returned by `charRect`: the 30 scalars of the glyph quad and the
advanced pen position. -/
structure CharRect where
  vertices : List ℚ
  pos : ℚ × ℚ

/-- The function `charRect` of `textutils.js`. -/
def charRect (pos : ℚ × ℚ) (font : Font) (fontMetrics : FontMetrics)
    (charMetrics : CharMetrics) (kern : ℚ) : CharRect :=
  let lowcase : Bool := (charMetrics.FLAGS &&& 1) == 1
  let baseline : ℚ := (mathRound (pos.2 - fontMetrics.pixelSize) : ℚ)
  let scaleY : ℚ := if lowcase then fontMetrics.lowScale else fontMetrics.capScale
  let scaleX : ℚ := fontMetrics.pixelSize
  let gLeft := charMetrics.LEFT
  let gTop := charMetrics.TOP
  let gRight := charMetrics.RIGHT
  let gBottom := charMetrics.BOTTOM
  let falloff : ℚ := font.falloff * fontMetrics.scaleTexturePxToMetrics
  let top : ℚ := baseline + scaleY * (charMetrics.BEARING_Y + falloff)
  let left : ℚ := pos.1 + scaleX * (charMetrics.BEARING_X - falloff + kern)
  let bottom : ℚ := top - scaleY * fontMetrics.scaleTexturePxToMetrics * (gBottom - gTop)
  let right : ℚ := left + scaleX * fontMetrics.scaleTexturePxToMetrics * (gRight - gLeft)
  let newPosX : ℚ := pos.1 + scaleX * (charMetrics.ADVANCE_X + kern)
  let sdfSize : ℚ := 2 * falloff * fontMetrics.pixelSize
  let gLeftTexture := gLeft / font.textureWidth
  let gTopTexture := gTop / font.textureHeight
  let gRightTexture := gRight / font.textureWidth
  let gBottomTexture := gBottom / font.textureHeight
  CharRect.mk
    [left, top, gLeftTexture, gTopTexture, sdfSize,
     right, top, gRightTexture, gTopTexture, sdfSize,
     left, bottom, gLeftTexture, gBottomTexture, sdfSize,
     left, bottom, gLeftTexture, gBottomTexture, sdfSize,
     right, top, gRightTexture, gTopTexture, sdfSize,
     right, bottom, gRightTexture, gBottomTexture, sdfSize]
    (newPosX, pos.2)

/-! ## `writeString` -/

/-- The variables of the loop of `writeString`. `pos` is the content of the
caller's array; `cpos` is `none` while the pen still is that very array and
`some p` once a glyph has replaced it by a fresh array. -/
structure WState where
  strPos : Nat
  arrayPos : Nat
  prevCharCode : Option Nat
  pos : ℚ × ℚ
  cpos : Option (ℚ × ℚ)
  xMax : ℚ
  vertexArray : List ℚ
deriving DecidableEq

/-- The current pen position, read through `cpos`. -/
def WState.pen (st : WState) : ℚ × ℚ := st.cpos.getD st.pos

/-- The number of scalars of one glyph: two triangles, 5 floats per vertex. -/
def glyphFloatCount : Nat := 6 * 5

/-- The copy loop `vertexArray[arrayPos] = rect.vertices[i]; arrayPos++`. A write
past the end of the array leaves it as it is. -/
def copyVertices : List ℚ → List ℚ → Nat → List ℚ
  | [], vertexArray, _ => vertexArray
  | v :: vs, vertexArray, arrayPos => copyVertices vs (vertexArray.set arrayPos v) (arrayPos + 1)

/-- The kerning selected for a glyph: `font.kerning[prev][cur]` when `prev` is not
`null` and both keys are present, else `0`. -/
def kernOf (font : Font) (prevCharCode : Option Nat) (currentCharCode : Nat) : ℚ :=
  match prevCharCode with
  | none => 0
  | some p =>
    match font.kerning p with
    | none => 0
    | some row =>
      match row currentCharCode with
      | none => 0
      | some k => k

/-- The code and metrics a character is drawn with: its own when the font has
an entry, those of the question mark otherwise; `none` when that is absent too. -/
def glyphOf (font : Font) (charCode : Option Nat) : Option (Nat × CharMetrics) :=
  match charCode.bind font.chars with
  | some m => charCode.map (fun c => (c, m))
  | none =>
    match font.chars CHAR_CODES.QUESTION_MARK with
    | some m => some (CHAR_CODES.QUESTION_MARK, m)
    | none => none

/-- The pen after a newline: `cpos[0] = pos[0]; cpos[1] -= lineHeight`. -/
def newlineState (fontMetrics : FontMetrics) (st : WState) : WState :=
  let xMax := if st.pen.1 > st.xMax then st.pen.1 else st.xMax
  match st.cpos with
  | none =>
    WState.mk (st.strPos + 1) st.arrayPos none
      (st.pos.1, st.pos.2 - fontMetrics.lineHeight) none xMax st.vertexArray
  | some c =>
    WState.mk (st.strPos + 1) st.arrayPos none
      st.pos (some (st.pos.1, c.2 - fontMetrics.lineHeight)) xMax st.vertexArray

/-- The pen after a space: `cpos[0] += font.advanceXSpace * pixelSize`. -/
def spaceState (font : Font) (fontMetrics : FontMetrics) (st : WState) : WState :=
  match st.cpos with
  | none =>
    WState.mk (st.strPos + 1) st.arrayPos none
      (st.pos.1 + font.advanceXSpace * fontMetrics.pixelSize, st.pos.2) none
      st.xMax st.vertexArray
  | some c =>
    WState.mk (st.strPos + 1) st.arrayPos none
      st.pos (some (c.1 + font.advanceXSpace * fontMetrics.pixelSize, c.2))
      st.xMax st.vertexArray

/-- The state after a glyph drawn with code `code`, metrics `m`. -/
def glyphState (font : Font) (fontMetrics : FontMetrics) (st : WState)
    (code : Nat) (m : CharMetrics) : WState :=
  let kern := kernOf font st.prevCharCode code
  let rect := charRect st.pen font fontMetrics m kern
  WState.mk (st.strPos + 1) (st.arrayPos + rect.vertices.length) (some code)
    st.pos (some rect.pos) st.xMax (copyVertices rect.vertices st.vertexArray st.arrayPos)

/-- One iteration of the loop of `writeString` after its two `break` tests:
lines 127 to 166. `none` is the `TypeError` of `charRect` on absent metrics. -/
def loopBody (string : List Nat) (font : Font) (fontMetrics : FontMetrics)
    (st : WState) : Option WState :=
  let currentCharCode : Option Nat := string[st.strPos]?
  if currentCharCode = some CHAR_CODES.NEWLINE then
    some (newlineState fontMetrics st)
  else if currentCharCode = some CHAR_CODES.SPACE then
    some (spaceState font fontMetrics st)
  else
    match glyphOf font currentCharCode with
    | none => none
    | some (code, m) => some (glyphState font fontMetrics st code m)

/-- The loop `for (;;)` of `writeString`, with a bound on the number of
iterations; `none` when an iteration throws or the bound is used up. -/
def writeLoop (string : List Nat) (font : Font) (fontMetrics : FontMetrics) :
    Nat → WState → Option WState
  | 0, _ => none
  | fuel + 1, st =>
    if st.strPos = string.length then some st
    else if st.arrayPos + glyphFloatCount ≥ st.vertexArray.length then some st
    else
      match loopBody string font fontMetrics st with
      | none => none
      | some st1 => writeLoop string font fontMetrics fuel st1

/-- The bounding rectangle `rect` of the result, `rect[0]` to `rect[3]`. -/
structure Rect where
  x : ℚ
  y : ℚ
  width : ℚ
  height : ℚ
deriving DecidableEq

/-- What a call of `writeString` leaves: the returned object (`rect`,
`string_pos`, `array_pos`) and the content of the two arrays the call writes
to, `vertexArray` and the caller's `pos`. -/
structure WriteResult where
  rect : Rect
  string_pos : Nat
  array_pos : Nat
  vertexArray : List ℚ
  pos : ℚ × ℚ
deriving DecidableEq

/-- The result object built from the final loop state (lines 169 to 175). -/
def resultOf (fontMetrics : FontMetrics) (st : WState) : WriteResult :=
  WriteResult.mk
    (Rect.mk st.pos.1 st.pos.2 (st.xMax - st.pos.1)
      (st.pos.2 - st.pen.2 + fontMetrics.lineHeight))
    st.strPos st.arrayPos st.vertexArray st.pos

/-- A number of iterations the loop cannot exceed: every iteration consumes a
character of the string or, past its end, 30 places of the array
(`writeLoop_eq_none`: the bound is never used up). -/
def loopBound (string : List Nat) (vertexArray : List ℚ) (strPos : Nat) : Nat :=
  (string.length - strPos) + vertexArray.length + 1

/-- The loop state at the entry of `writeString`: `prevCharCode = null`,
`cpos = pos` (the same array), `xMax = 0.0`. -/
def initState (pos : ℚ × ℚ) (vertexArray : List ℚ) (strPos arrayPos : Nat) : WState :=
  WState.mk strPos arrayPos none pos none 0 vertexArray

/-- The function `writeString` of `textutils.js`; `strPos` and `arrayPos` are
passed explicitly (their default in the source is `0`). -/
def writeString (string : List Nat) (font : Font) (fontMetrics : FontMetrics)
    (pos : ℚ × ℚ) (vertexArray : List ℚ) (strPos arrayPos : Nat) : Option WriteResult :=
  (writeLoop string font fontMetrics (loopBound string vertexArray strPos)
    (initState pos vertexArray strPos arrayPos)).map (resultOf fontMetrics)

/-- The state at the top of the loop after `n` full iterations; `none` when the
loop ends (by a `break` or a `TypeError`) before that. -/
def stateAfter (string : List Nat) (font : Font) (fontMetrics : FontMetrics) :
    Nat → WState → Option WState
  | 0, st => some st
  | n + 1, st =>
    if st.strPos = string.length then none
    else if st.arrayPos + glyphFloatCount ≥ st.vertexArray.length then none
    else (loopBody string font fontMetrics st).bind (stateAfter string font fontMetrics n)

/-! ## Notions the statements use -/

/-- Whether `charCodeAt` gave a code that is drawn: neither newline nor space. -/
def isGlyphCode (c : Option Nat) : Bool :=
  !(decide (c = some CHAR_CODES.NEWLINE)) && !(decide (c = some CHAR_CODES.SPACE))

/-- The number of characters of a string that are neither space nor newline. -/
def glyphCount (l : List Nat) : Nat :=
  l.countP (fun c => isGlyphCode (some c))

/-- The loop state with the string index moved by `k`. -/
def WState.shift (k : Nat) (st : WState) : WState :=
  WState.mk (st.strPos + k) st.arrayPos st.prevCharCode st.pos st.cpos st.xMax st.vertexArray

/-- The result with the string index moved by `k`. -/
def WriteResult.shift (k : Nat) (r : WriteResult) : WriteResult :=
  WriteResult.mk r.rect (r.string_pos + k) r.array_pos r.vertexArray r.pos

/-- The string with every character the font lacks, space and newline apart,
replaced by the question mark. -/
def substituteMissing (font : Font) (string : List Nat) : List Nat :=
  string.map (fun c =>
    if c = CHAR_CODES.NEWLINE ∨ c = CHAR_CODES.SPACE ∨ (font.chars c).isSome then c
    else CHAR_CODES.QUESTION_MARK)

/-- The kerning rule as the specification states it, for the glyph at index `i`
of a call that started at index `strPos0`, drawn with code `cur`: the table
entry for the pair (previous code, `cur`) when the character at `i - 1` was
laid out by this call as a glyph (with code 63 when it was substituted) and the
table has that entry, and `0` in every other case. -/
def kerningRule (font : Font) (string : List Nat) (strPos0 i cur : Nat) : ℚ :=
  if i ≤ strPos0 then 0
  else if string[i - 1]? = some CHAR_CODES.NEWLINE ∨ string[i - 1]? = some CHAR_CODES.SPACE then 0
  else
    match glyphOf font string[i - 1]? with
    | none => 0
    | some (prev, _) =>
      match font.kerning prev with
      | none => 0
      | some row => (row cur).getD 0

/-- The kerning memory an iteration leaves, by the character it read. -/
def memoryAfter (font : Font) (c : Option Nat) : Option Nat :=
  if c = some CHAR_CODES.NEWLINE ∨ c = some CHAR_CODES.SPACE then none
  else (glyphOf font c).map Prod.fst

/-! ## `estimateSubpixelCoverage` -/

/-- GLSL `clamp(x, 0.0, 1.0)`. -/
def clamp01 (x : ℚ) : ℚ := min (max x 0) 1

/-- A GLSL `vec3` of colour channels. -/
structure Vec3 where
  r : ℚ
  g : ℚ
  b : ℚ
deriving DecidableEq

/-- The channels in reverse order. -/
def Vec3.reversed (v : Vec3) : Vec3 := Vec3.mk v.b v.g v.r

/-- The function `estimateSubpixelCoverage` of the fragment shader. -/
def estimateSubpixelCoverage (grad : ℚ × ℚ) (pixelCoverage subpixelLevel : ℚ)
    (isBgr isVertical : Bool) : Vec3 :=
  let slope0 : ℚ := if isVertical then grad.2 else grad.1
  let slope : ℚ := slope0 * (3 / 10 * subpixelLevel)
  let flip : Bool :=
    if isVertical then (decide (slope < 0)) != isBgr else (decide (slope > 0)) != isBgr
  let subpixelPositions : Vec3 := if flip then Vec3.mk 2 1 0 else Vec3.mk 0 1 2
  Vec3.mk
    (clamp01 (pixelCoverage + |slope| * (2 * pixelCoverage - subpixelPositions.r)))
    (clamp01 (pixelCoverage + |slope| * (2 * pixelCoverage - subpixelPositions.g)))
    (clamp01 (pixelCoverage + |slope| * (2 * pixelCoverage - subpixelPositions.b)))

/-- The slope the shader works with: the gradient along the subpixel axis times
`0.3 * subpixelLevel`. -/
def slopeOf (grad : ℚ × ℚ) (subpixelLevel : ℚ) (isVertical : Bool) : ℚ :=
  (if isVertical then grad.2 else grad.1) * (3 / 10 * subpixelLevel)

/-- The flip decision of the shader for a given slope. -/
def flipOf (slope : ℚ) (isBgr isVertical : Bool) : Bool :=
  if isVertical then (decide (slope < 0)) != isBgr else (decide (slope > 0)) != isBgr

/-- The clamped coverage vector for a given slope and flip decision. -/
def coverageOf (slope pixelCoverage : ℚ) (flip : Bool) : Vec3 :=
  let p : Vec3 := if flip then Vec3.mk 2 1 0 else Vec3.mk 0 1 2
  Vec3.mk (clamp01 (pixelCoverage + |slope| * (2 * pixelCoverage - p.r)))
    (clamp01 (pixelCoverage + |slope| * (2 * pixelCoverage - p.g)))
    (clamp01 (pixelCoverage + |slope| * (2 * pixelCoverage - p.b)))

/-! ## Example data -/

/-- A small font: `A` (65), `B` (66), lowercase `x` (120) and `?` (63), with a
kerning pair `A`,`B`. -/
def demoFont : Font :=
  Font.mk (1 / 2) (-1 / 5) (1 / 10) 4 48 256 256 (1 / 4)
    (fun c =>
      if c = 65 then some (CharMetrics.mk 0 0 40 48 0 1 (3 / 5) 0)
      else if c = 66 then some (CharMetrics.mk 40 0 80 48 0 1 (1 / 2) 0)
      else if c = 120 then some (CharMetrics.mk 80 0 110 30 0 (1 / 2) (2 / 5) 1)
      else if c = 63 then some (CharMetrics.mk 110 0 140 48 0 1 (1 / 2) 0)
      else none)
    (fun p =>
      if p = 65 then some (fun c => if c = 66 then some (-1 / 20) else none)
      else none)

/-- The metrics of `demoFont` at 20 pixels. -/
def demoMetrics : FontMetrics := fontMetrics demoFont 20 0

/-- An empty vertex array with room for `n` scalars. -/
def emptyArray (n : Nat) : List ℚ := List.replicate n 0

/-- The loop state after the glyph `A` of a call on `demoFont` from `(0, 0)` with
an array of 90 scalars. -/
def demoStateAfterA : WState :=
  glyphState demoFont demoMetrics (initState (0, 0) (emptyArray 90) 0 0) 65
    (CharMetrics.mk 0 0 40 48 0 1 (3 / 5) 0)

/-- The quad of the glyph `A` of `demoFont` at 20 pixels, pen at `(0, 0)`. -/
def demoRectA : CharRect :=
  charRect (0, 0) demoFont demoMetrics (CharMetrics.mk 0 0 40 48 0 1 (3 / 5) 0) 0

/-! ## The vertex stream as geometry -/

/-- Vertex number `i` of a vertex stream of stride 5: its five scalars. -/
def vertexAt (vs : List ℚ) (i : Nat) : List ℚ := (vs.drop (5 * i)).take 5

/-- The position `(x, y)` of vertex number `i` of a vertex stream of stride 5. -/
def vertexPos (vs : List ℚ) (i : Nat) : ℚ × ℚ := (vs.getD (5 * i) 0, vs.getD (5 * i + 1) 0)

/-- Twice the signed area of the triangle `a b c`: positive when `a`, `b`, `c` run
counter-clockwise with Y pointing up, negative when they run clockwise. -/
def signedArea2 (a b c : ℚ × ℚ) : ℚ :=
  (b.1 - a.1) * (c.2 - a.2) - (c.1 - a.1) * (b.2 - a.2)

/-- The point `p` lies in the closed triangle `a b c`, of either orientation. -/
def inTriangle (a b c p : ℚ × ℚ) : Prop :=
  (0 ≤ signedArea2 a b p ∧ 0 ≤ signedArea2 b c p ∧ 0 ≤ signedArea2 c a p) ∨
  (signedArea2 a b p ≤ 0 ∧ signedArea2 b c p ≤ 0 ∧ signedArea2 c a p ≤ 0)

instance (a b c p : ℚ × ℚ) : Decidable (inTriangle a b c p) := by
  unfold inTriangle
  infer_instance

/-! ## Binary64 arithmetic and `fontMetrics` in it

JavaScript numbers are IEEE 754 binary64 values. This part models them as they
are: a finite double is the rational it stands for, every operation rounds its
exact result to the nearest double, a tie going to the even significand, and
gives an infinity when that is out of range. The model has one zero (the sign
of a zero is not kept). -/

namespace Binary64

/-- The number of binary digits of `n`, counted with at most `fuel` halvings. -/
def bitLength : Nat → Nat → Nat
  | 0, _ => 0
  | fuel + 1, n => if n = 0 then 0 else bitLength fuel (n / 2) + 1

/-- The power `2 ^ e` for an integer exponent. -/
def pow2 (e : ℤ) : ℚ :=
  if 0 ≤ e then ((2 ^ e.toNat : ℕ) : ℚ) else 1 / ((2 ^ (-e).toNat : ℕ) : ℚ)

/-- The binary exponent of a positive number: the `e` with
`2 ^ e ≤ x < 2 ^ (e + 1)`. -/
def floorLog2 (x : ℚ) : ℤ :=
  let e : ℤ := (bitLength x.num.natAbs x.num.natAbs : ℤ) - (bitLength x.den x.den : ℤ)
  if pow2 e ≤ x then e else e - 1

/-- Rounding to the nearest integer, a tie going to the even one. -/
def roundHalfEven (x : ℚ) : ℤ :=
  let f : ℤ := ⌊x⌋
  if x - f < 1 / 2 then f
  else if 1 / 2 < x - f then f + 1
  else if f % 2 = 0 then f else f + 1

/-- The spacing of the doubles around a nonzero `x`: 53 significant bits, and
`2 ^ -1074` in the subnormal range. -/
def ulp (x : ℚ) : ℚ := pow2 (max (floorLog2 |x| - 52) (-1074))

/-- The double nearest to `x`, a tie going to the even significand, with the
exponent not bounded above (`JsNumber.ofRat` turns a value out of range into
an infinity). -/
def round (x : ℚ) : ℚ :=
  if x = 0 then 0 else (roundHalfEven (x / ulp x) : ℚ) * ulp x

end Binary64

/-- A JavaScript number: a finite double, `NaN` or an infinity. -/
inductive JsNumber where
  | finite (q : ℚ)
  | nan
  | posInf
  | negInf
deriving DecidableEq

/-- Whether the number is finite. -/
def JsNumber.isFinite : JsNumber → Bool
  | JsNumber.finite _ => true
  | _ => false

/-- The result of an operation whose exact value is `x`: the nearest double,
or an infinity when that double would be `2 ^ 1024` or more in size. -/
def JsNumber.ofRat (x : ℚ) : JsNumber :=
  let y := Binary64.round x
  if Binary64.pow2 1024 ≤ |y| then (if 0 < x then JsNumber.posInf else JsNumber.negInf)
  else JsNumber.finite y

/-- JavaScript unary minus. -/
def jsNeg : JsNumber → JsNumber
  | JsNumber.finite a => JsNumber.finite (-a)
  | JsNumber.nan => JsNumber.nan
  | JsNumber.posInf => JsNumber.negInf
  | JsNumber.negInf => JsNumber.posInf

/-- JavaScript `+` on numbers. -/
def jsAdd : JsNumber → JsNumber → JsNumber
  | JsNumber.finite a, JsNumber.finite b => JsNumber.ofRat (a + b)
  | JsNumber.nan, _ => JsNumber.nan
  | _, JsNumber.nan => JsNumber.nan
  | JsNumber.posInf, JsNumber.negInf => JsNumber.nan
  | JsNumber.negInf, JsNumber.posInf => JsNumber.nan
  | JsNumber.posInf, _ => JsNumber.posInf
  | JsNumber.negInf, _ => JsNumber.negInf
  | JsNumber.finite _, JsNumber.posInf => JsNumber.posInf
  | JsNumber.finite _, JsNumber.negInf => JsNumber.negInf

/-- JavaScript `-` on numbers. -/
def jsSub (a b : JsNumber) : JsNumber := jsAdd a (jsNeg b)

/-- The product of an infinity (`+Infinity` when `positive`) and the finite
number `s`: `NaN` when `s = 0`, else the infinity of the product's sign. -/
def infTimes (positive : Bool) (s : ℚ) : JsNumber :=
  if s = 0 then JsNumber.nan
  else if (decide (0 < s)) = positive then JsNumber.posInf else JsNumber.negInf

/-- JavaScript `*` on numbers. -/
def jsMul : JsNumber → JsNumber → JsNumber
  | JsNumber.finite a, JsNumber.finite b => JsNumber.ofRat (a * b)
  | JsNumber.nan, _ => JsNumber.nan
  | _, JsNumber.nan => JsNumber.nan
  | JsNumber.posInf, JsNumber.finite b => infTimes true b
  | JsNumber.negInf, JsNumber.finite b => infTimes false b
  | JsNumber.finite a, JsNumber.posInf => infTimes true a
  | JsNumber.finite a, JsNumber.negInf => infTimes false a
  | JsNumber.posInf, JsNumber.posInf => JsNumber.posInf
  | JsNumber.negInf, JsNumber.negInf => JsNumber.posInf
  | JsNumber.posInf, JsNumber.negInf => JsNumber.negInf
  | JsNumber.negInf, JsNumber.posInf => JsNumber.negInf

/-- JavaScript `/` on numbers. Division by zero does not throw: `0 / 0` is
`NaN`, any other `a / 0` an infinity (the zero divisor taken as `+0`). -/
def jsDiv : JsNumber → JsNumber → JsNumber
  | JsNumber.finite a, JsNumber.finite b =>
    if b = 0 then
      if a = 0 then JsNumber.nan else if 0 < a then JsNumber.posInf else JsNumber.negInf
    else JsNumber.ofRat (a / b)
  | JsNumber.nan, _ => JsNumber.nan
  | _, JsNumber.nan => JsNumber.nan
  | JsNumber.finite _, JsNumber.posInf => JsNumber.finite 0
  | JsNumber.finite _, JsNumber.negInf => JsNumber.finite 0
  | JsNumber.posInf, JsNumber.finite b => if 0 ≤ b then JsNumber.posInf else JsNumber.negInf
  | JsNumber.negInf, JsNumber.finite b => if 0 ≤ b then JsNumber.negInf else JsNumber.posInf
  | JsNumber.posInf, JsNumber.posInf => JsNumber.nan
  | JsNumber.posInf, JsNumber.negInf => JsNumber.nan
  | JsNumber.negInf, JsNumber.posInf => JsNumber.nan
  | JsNumber.negInf, JsNumber.negInf => JsNumber.nan

/-- JavaScript `Math.round` on numbers: exact on a finite double, and `NaN` and
the infinities are returned as they are. -/
def jsRound : JsNumber → JsNumber
  | JsNumber.finite a => JsNumber.finite (mathRound a : ℚ)
  | x => x

/-- The object returned by `fontMetrics`, its fields as JavaScript numbers. -/
structure FontMetricsJs where
  capScale : JsNumber
  lowScale : JsNumber
  pixelSize : JsNumber
  lineHeight : JsNumber
  scaleTexturePxToMetrics : JsNumber
deriving DecidableEq

/-- The function `fontMetrics` in binary64 arithmetic; the numbers of the font
and `pixelSize`, `moreLineGap` are finite doubles. `none` would be a thrown
error: the function has no `throw` and no test of the font, and none of its
operations throws on numbers, so the result is always `some`. -/
def fontMetricsJs (font : Font) (pixelSize moreLineGap : ℚ) : Option FontMetricsJs :=
  let capScale := jsRound (JsNumber.finite pixelSize)
  let lowScale :=
    jsDiv (jsRound (jsMul (JsNumber.finite font.xHeight) capScale))
      (JsNumber.finite font.xHeight)
  let lineHeight :=
    jsMul (JsNumber.finite pixelSize)
      (jsAdd
        (jsAdd (jsSub (JsNumber.finite 1) (JsNumber.finite font.descent))
          (JsNumber.finite font.lineGap))
        (JsNumber.finite moreLineGap))
  let scaleTexturePxToMetrics :=
    jsDiv (jsSub (JsNumber.finite 1) (JsNumber.finite font.descent))
      (JsNumber.finite font.glyphHeight)
  some (FontMetricsJs.mk capScale lowScale (JsNumber.finite pixelSize) lineHeight
    scaleTexturePxToMetrics)

/-- A font whose numbers are the doubles of the given decimal values; it has no
glyphs. -/
def fontOfNumbers (xHeight descent lineGap glyphHeight : ℚ) : Font :=
  Font.mk (Binary64.round xHeight) (Binary64.round descent) (Binary64.round lineGap) 4
    (Binary64.round glyphHeight) 256 256 (1 / 4) (fun _ => none) (fun _ => none)

/-- A font with `xHeight = 0` and `glyphHeight = 0` (`descent = -0.2`,
`lineGap = 0.1`). -/
def zeroFont : Font := fontOfNumbers 0 (-1 / 5) (1 / 10) 0

/-! ## The fragment shader `main` -/

/-- GLSL `smoothstep`. -/
def smoothstep (edge0 edge1 x : ℚ) : ℚ :=
  let t := clamp01 ((x - edge0) / (edge1 - edge0))
  t * t * (3 - 2 * t)

/-- GLSL `mix` on scalars. -/
def mix (x y a : ℚ) : ℚ := x * (1 - a) + y * a

/-- GLSL `mix` on `vec3`, with a weight for each channel. -/
def mix3 (x y a : Vec3) : Vec3 := Vec3.mk (mix x.r y.r a.r) (mix x.g y.g a.g) (mix x.b y.b a.b)

/-- The uniforms and varyings of the fragment shader, and the two built-in
functions it calls that are no rational functions: `length` of a `vec2` and
`pow`. `font_tex` is the red channel of `texture2D(font_tex, .)`. -/
structure Fragment where
  font_tex : ℚ × ℚ → ℚ
  hint_amount : ℚ
  subpixel_amount : ℚ
  is_bgr : Bool
  is_vertical : Bool
  bg_color : Vec3
  font_color : Vec3
  tc0 : ℚ × ℚ
  doffset : ℚ
  sdf_texel : ℚ × ℚ
  length : ℚ × ℚ → ℚ
  pow : ℚ → ℚ → ℚ

/-- The normalised gradient `grad` of `main` (lines 117 to 124). -/
def Fragment.grad (f : Fragment) : ℚ × ℚ :=
  let sdf := f.font_tex f.tc0
  let sdf_north := f.font_tex (f.tc0.1 + 0, f.tc0.2 + f.sdf_texel.2)
  let sdf_east := f.font_tex (f.tc0.1 + f.sdf_texel.1, f.tc0.2 + 0)
  let sgrad : ℚ × ℚ := (sdf_east - sdf, sdf_north - sdf)
  let sgrad_len := max (f.length sgrad) (1 / 128)
  (sgrad.1 / sgrad_len, sgrad.2 / sgrad_len)

/-- The coverage `alpha` of `main` after `smoothstep` and the contrast power
(lines 125 to 135). -/
def Fragment.alpha (f : Fragment) : ℚ :=
  let sdf := f.font_tex f.tc0
  let vgrad := |f.grad.2|
  let horz_scale : ℚ := 11 / 10
  let vert_scale : ℚ := 6 / 10
  let hdoffset := mix (f.doffset * horz_scale) (f.doffset * vert_scale) vgrad
  let res_doffset := mix f.doffset hdoffset f.hint_amount
  let alpha := smoothstep (1 / 2 - res_doffset) (1 / 2 + res_doffset) sdf
  f.pow alpha (1 + 2 / 10 * vgrad * f.hint_amount)

/-- The function `main` of the fragment shader: `none` when the fragment is
discarded, else the four components of `gl_FragColor`. -/
def main (f : Fragment) : Option (Vec3 × ℚ) :=
  let alpha := f.alpha
  if alpha < 20 / 256 then none
  else
    let channels :=
      estimateSubpixelCoverage f.grad alpha f.subpixel_amount f.is_bgr f.is_vertical
    let res := mix3 f.bg_color f.font_color channels
    some (res, 1)

/-- A fragment on a flat distance field of value `sdf`: the gradient is zero, so
the contrast exponent is 1 and `pow` returns its base. -/
def demoFragment (sdf : ℚ) : Fragment :=
  Fragment.mk (fun _ => sdf) 1 1 false false (Vec3.mk (9 / 10) (9 / 10) (9 / 10))
    (Vec3.mk (1 / 10) (1 / 10) (1 / 10)) (0, 0) (1 / 4) (1 / 256, 1 / 256)
    (fun v => |v.1| + |v.2|) (fun x _ => x)

/-! ## The subpixel selector of `render` -/

/-- The three shading parameters `render` derives from the subpixel selector. -/
structure SubpixelSettings where
  subpixel : ℚ
  isBgr : Bool
  isVertical : Bool
deriving DecidableEq

/-- Lines 155 to 157 of `render` in `main.js`: the mapping from the value of the
subpixel selector (`subpixelInput.value`) to `subpixel`, `isBgr`, `isVertical`. -/
def renderSubpixel (value : String) : SubpixelSettings :=
  let subpixel : ℚ := if value ≠ "off" then 1 else 0
  let isBgr : Bool := value = "bgr_horizontal" || value = "bgr_vertical"
  let isVertical : Bool := value = "rgb_vertical" || value = "bgr_vertical"
  SubpixelSettings.mk subpixel isBgr isVertical

/-- The four subpixel patterns the mapping names. -/
def recognisedPattern (value : String) : Bool :=
  value = "rgb_horizontal" || value = "bgr_horizontal" || value = "rgb_vertical"
    || value = "bgr_vertical"

/-! ## Channel order -/

/-- The channels do not fall from `r` over `g` to `b`: `r ≤ g ≤ b`. -/
def Vec3.rising (v : Vec3) : Prop := v.r ≤ v.g ∧ v.g ≤ v.b

/-- The channels do not rise from `r` over `g` to `b`: `r ≥ g ≥ b`. -/
def Vec3.falling (v : Vec3) : Prop := v.b ≤ v.g ∧ v.g ≤ v.r

instance (v : Vec3) : Decidable v.rising := by
  unfold Vec3.rising
  infer_instance

instance (v : Vec3) : Decidable v.falling := by
  unfold Vec3.falling
  infer_instance

/-! ## The loop of `writeString` -/

theorem copyVertices_length (vs va : List ℚ) (p : Nat) :
    (copyVertices vs va p).length = va.length := by
  induction vs generalizing va p with
  | nil => rfl
  | cons v vs ih => simp [copyVertices, ih]

theorem copyVertices_getElem_of_lt (vs va : List ℚ) (p i : Nat) (h : i < p) :
    (copyVertices vs va p)[i]? = va[i]? := by
  induction vs generalizing va p with
  | nil => rfl
  | cons v vs ih =>
    simp only [copyVertices]
    rw [ih _ _ (Nat.lt_succ_of_lt h), List.getElem?_set_ne (Nat.ne_of_gt h)]

theorem copyVertices_getElem_of_ge (vs va : List ℚ) (p i : Nat) (h : p + vs.length ≤ i) :
    (copyVertices vs va p)[i]? = va[i]? := by
  induction vs generalizing va p with
  | nil => rfl
  | cons v vs ih =>
    simp only [copyVertices]
    simp only [List.length_cons] at h
    rw [ih _ _ (by omega), List.getElem?_set_ne (by omega)]

theorem charRect_vertices_length (pos : ℚ × ℚ) (font : Font) (fm : FontMetrics)
    (m : CharMetrics) (kern : ℚ) : (charRect pos font fm m kern).vertices.length = 30 := rfl

theorem glyphOf_isSome (font : Font) (c : Option Nat)
    (hq : (font.chars CHAR_CODES.QUESTION_MARK).isSome) : (glyphOf font c).isSome := by
  unfold glyphOf
  cases hc : c.bind font.chars with
  | some m =>
    cases c with
    | none => simp at hc
    | some c => simp
  | none =>
    cases h63 : font.chars CHAR_CODES.QUESTION_MARK with
    | none => simp [h63] at hq
    | some m => simp

/-- What one iteration does to the indices and the array length. -/
theorem loopBody_indices {string : List Nat} {font : Font} {fm : FontMetrics} {st st1 : WState}
    (h : loopBody string font fm st = some st1) :
    st1.strPos = st.strPos + 1 ∧ st1.vertexArray.length = st.vertexArray.length ∧
      st1.arrayPos = st.arrayPos + (if isGlyphCode string[st.strPos]? then 30 else 0) := by
  unfold loopBody at h
  simp only at h
  split_ifs at h with h1 h2
  · cases h
    refine ⟨?_, ?_, ?_⟩ <;> (unfold newlineState; cases st.cpos <;> simp [isGlyphCode, h1])
  · cases h
    refine ⟨?_, ?_, ?_⟩ <;> (unfold spaceState; cases st.cpos <;> simp [isGlyphCode, h1, h2])
  · cases hg : glyphOf font string[st.strPos]? with
    | none => simp [hg] at h
    | some cm =>
      obtain ⟨code, m⟩ := cm
      simp only [hg, Option.some.injEq] at h
      subst h
      simp [glyphState, copyVertices_length, charRect_vertices_length, isGlyphCode, h1, h2]

theorem loopBody_isSome (string : List Nat) (font : Font) (fm : FontMetrics) (st : WState)
    (hq : (font.chars CHAR_CODES.QUESTION_MARK).isSome) :
    (loopBody string font fm st).isSome := by
  unfold loopBody
  simp only
  split_ifs
  · rfl
  · rfl
  · have := glyphOf_isSome font string[st.strPos]? hq
    cases hg : glyphOf font string[st.strPos]? with
    | none => simp [hg] at this
    | some cm => rfl

theorem writeLoop_isSome (string : List Nat) (font : Font) (fm : FontMetrics)
    (hq : (font.chars CHAR_CODES.QUESTION_MARK).isSome) (fuel : Nat) (st : WState)
    (hfuel : (string.length - st.strPos) + (st.vertexArray.length - st.arrayPos) < fuel) :
    (writeLoop string font fm fuel st).isSome := by
  induction fuel generalizing st with
  | zero => omega
  | succ fuel ih =>
    unfold writeLoop
    split_ifs with h1 h2
    · rfl
    · rfl
    · have hb := loopBody_isSome string font fm st hq
      cases hbody : loopBody string font fm st with
      | none => simp [hbody] at hb
      | some st1 =>
        simp only
        obtain ⟨hs, hl, ha⟩ := loopBody_indices hbody
        apply ih
        simp only [glyphFloatCount] at h2
        by_cases hlt : st.strPos < string.length
        · have : st.arrayPos ≤ st1.arrayPos := by rw [ha]; omega
          omega
        · have hnone : string[st.strPos]? = none := by
            rw [List.getElem?_eq_none_iff]; omega
          rw [hnone] at ha
          simp [isGlyphCode] at ha
          omega

/-- The indices at the end of the loop, for a start inside the string. -/
theorem writeLoop_indices {string : List Nat} {font : Font} {fm : FontMetrics}
    (fuel : Nat) (st st2 : WState) (h : writeLoop string font fm fuel st = some st2)
    (hpos : st.strPos ≤ string.length) :
    st.strPos ≤ st2.strPos ∧ st2.strPos ≤ string.length ∧
      st2.vertexArray.length = st.vertexArray.length ∧
      st2.arrayPos
        = st.arrayPos + 30 * glyphCount ((string.drop st.strPos).take (st2.strPos - st.strPos)) ∧
      (st2.arrayPos = st.arrayPos ∨ st2.arrayPos < st.vertexArray.length) ∧
      (st2.strPos = string.length ∨ st2.vertexArray.length ≤ st2.arrayPos + 30) := by
  induction fuel generalizing st with
  | zero => simp [writeLoop] at h
  | succ fuel ih =>
    unfold writeLoop at h
    split_ifs at h with h1 h2
    · cases h
      simp [glyphCount, h1]
    · cases h
      simp only [glyphFloatCount] at h2
      simp only [glyphCount, Nat.sub_self, List.take_zero, List.countP_nil, Nat.mul_zero,
        Nat.add_zero, true_or, le_refl, true_and]
      exact ⟨hpos, Or.inr (by omega)⟩
    · cases hbody : loopBody string font fm st with
      | none => simp [hbody] at h
      | some st1 =>
        simp only [hbody] at h
        obtain ⟨hs, hl, ha⟩ := loopBody_indices hbody
        have hlt : st.strPos < string.length := by omega
        obtain ⟨i1, i2, i3, i4, i5, i6⟩ := ih st1 h (by omega)
        simp only [glyphFloatCount] at h2
        have hseg : (string.drop st.strPos).take (st2.strPos - st.strPos)
            = string[st.strPos] :: (string.drop st1.strPos).take (st2.strPos - st1.strPos) := by
          rw [List.drop_eq_getElem_cons hlt, hs]
          have : st2.strPos - st.strPos = (st2.strPos - (st.strPos + 1)) + 1 := by omega
          rw [this, List.take_succ_cons]
        have hget : string[st.strPos]? = some string[st.strPos] := List.getElem?_eq_getElem hlt
        refine ⟨by omega, i2, by omega, ?_, ?_, ?_⟩
        · rw [hseg, i4, ha, hget]
          simp only [glyphCount, List.countP_cons]
          split_ifs <;> omega
        · right
          rcases i5 with h5 | h5
          · rw [h5, ha]; split_ifs <;> omega
          · omega
        · rw [i3, hl] at i6 ⊢
          exact i6

theorem writeString_eq (string : List Nat) (font : Font) (fm : FontMetrics)
    (pos : ℚ × ℚ) (va : List ℚ) (strPos arrayPos : Nat) :
    writeString string font fm pos va strPos arrayPos
      = (writeLoop string font fm (loopBound string va strPos)
          (initState pos va strPos arrayPos)).map (resultOf fm) := rfl

theorem writeString_isSome (string : List Nat) (font : Font) (fm : FontMetrics)
    (pos : ℚ × ℚ) (va : List ℚ) (strPos arrayPos : Nat)
    (hq : (font.chars CHAR_CODES.QUESTION_MARK).isSome) :
    ∃ st, writeLoop string font fm (loopBound string va strPos)
        (initState pos va strPos arrayPos) = some st ∧
      writeString string font fm pos va strPos arrayPos = some (resultOf fm st) := by
  have h := writeLoop_isSome string font fm hq (loopBound string va strPos)
    (initState pos va strPos arrayPos) (by simp only [initState, loopBound]; omega)
  obtain ⟨st, hst⟩ := Option.isSome_iff_exists.mp h
  exact ⟨st, hst, by rw [writeString_eq, hst]; rfl⟩

theorem glyphCount_eq_length (l : List Nat)
    (h : ∀ c ∈ l, c ≠ CHAR_CODES.SPACE ∧ c ≠ CHAR_CODES.NEWLINE) : glyphCount l = l.length := by
  unfold glyphCount
  rw [List.countP_eq_length]
  intro c hc
  obtain ⟨h1, h2⟩ := h c hc
  simp [isGlyphCode, h1, h2]

/-- C1: truncation safety. For every `k`, a string of `k + 1` characters none of
which is a space or a newline, a font with an entry for the question mark and
a vertex array of exactly `30 * k` scalars, `writeString` from `strPos = 0`,
`arrayPos = 0` returns a result with `array_pos ≤ 30 * k` and
`string_pos < k + 1`. -/
theorem writeString_truncation (k : Nat) (string : List Nat) (font : Font) (fm : FontMetrics)
    (pos : ℚ × ℚ) (vertexArray : List ℚ)
    (hlen : string.length = k + 1)
    (hglyph : ∀ c ∈ string, c ≠ CHAR_CODES.SPACE ∧ c ≠ CHAR_CODES.NEWLINE)
    (hq : (font.chars CHAR_CODES.QUESTION_MARK).isSome)
    (hva : vertexArray.length = 30 * k) :
    ∃ r, writeString string font fm pos vertexArray 0 0 = some r ∧
      r.array_pos ≤ 30 * k ∧ r.string_pos < k + 1 := by
  obtain ⟨st, hst, hr⟩ := writeString_isSome string font fm pos vertexArray 0 0 hq
  refine ⟨_, hr, ?_⟩
  obtain ⟨-, i2, -, i4, i5, -⟩ := writeLoop_indices _ _ _ hst (Nat.zero_le _)
  simp only [initState, Nat.sub_zero, List.drop_zero, Nat.zero_add] at i2 i4 i5
  have ha : st.arrayPos ≤ 30 * k := by omega
  refine ⟨ha, ?_⟩
  show st.strPos < k + 1
  by_contra hcon
  have hfull : st.strPos = string.length := by omega
  rw [hfull, List.take_length, glyphCount_eq_length string hglyph] at i4
  omega

/-- Witness of C1: three glyphs, an array for two. -/
theorem writeString_truncation_witness :
    ∃ r, writeString [65, 66, 120] demoFont demoMetrics (0, 0) (emptyArray 60) 0 0 = some r ∧
      r.array_pos ≤ 30 * 2 ∧ r.string_pos < 2 + 1 :=
  writeString_truncation 2 [65, 66, 120] demoFont demoMetrics (0, 0) (emptyArray 60)
    (by decide) (by decide) (by decide) (by decide)

theorem loopBody_substituteMissing (string : List Nat) (font : Font) (fm : FontMetrics)
    (st : WState) :
    loopBody (substituteMissing font string) font fm st = loopBody string font fm st := by
  unfold loopBody
  simp only [substituteMissing, List.getElem?_map]
  cases hc : string[st.strPos]? with
  | none => rfl
  | some c =>
    simp only [Option.map_some']
    by_cases h1 : c = CHAR_CODES.NEWLINE
    · simp [h1]
    · by_cases h2 : c = CHAR_CODES.SPACE
      · simp [h2]
      · cases h3 : font.chars c with
        | some m => simp [h3]
        | none =>
          have h1n : ¬ c = 10 := h1
          have h2n : ¬ c = 32 := h2
          simp only [h1n, h2n, h3, glyphOf, CHAR_CODES.QUESTION_MARK, CHAR_CODES.NEWLINE,
            CHAR_CODES.SPACE, or_self, Option.isSome_none, Bool.false_eq_true, if_false,
            Option.some.injEq, Option.some_bind, Option.map_some', reduceCtorEq]
          cases font.chars 63 <;> simp

theorem substituteMissing_length (font : Font) (string : List Nat) :
    (substituteMissing font string).length = string.length := by
  simp [substituteMissing]

theorem writeLoop_substituteMissing (string : List Nat) (font : Font) (fm : FontMetrics)
    (fuel : Nat) (st : WState) :
    writeLoop (substituteMissing font string) font fm fuel st = writeLoop string font fm fuel st := by
  induction fuel generalizing st with
  | zero => rfl
  | succ fuel ih =>
    simp only [writeLoop, loopBody_substituteMissing, substituteMissing_length, ih]

/-- C4: missing-glyph fallback. For a font with an entry for the question mark,
`writeString` on a string returns, and it returns what it returns on the
string with every character the font lacks (space and newline apart) replaced
by the question mark: the same vertex array, rect, `string_pos`, `array_pos`
(and caller's `pos`). The kerning around a replaced character therefore is
that of the question mark. -/
theorem writeString_missing_glyph (string : List Nat) (font : Font) (fm : FontMetrics)
    (pos : ℚ × ℚ) (vertexArray : List ℚ) (strPos arrayPos : Nat)
    (hq : (font.chars CHAR_CODES.QUESTION_MARK).isSome) :
    ∃ r, writeString string font fm pos vertexArray strPos arrayPos = some r ∧
      writeString (substituteMissing font string) font fm pos vertexArray strPos arrayPos
        = some r := by
  obtain ⟨st, -, hr⟩ := writeString_isSome string font fm pos vertexArray strPos arrayPos hq
  refine ⟨_, hr, ?_⟩
  rw [← hr, writeString_eq, writeString_eq, writeLoop_substituteMissing]
  simp [loopBound, substituteMissing_length]

theorem writeLoop_succ (string : List Nat) (font : Font) (fm : FontMetrics) (fuel : Nat)
    (st : WState) :
    writeLoop string font fm (fuel + 1) st =
      if st.strPos = string.length then some st
      else if st.arrayPos + glyphFloatCount ≥ st.vertexArray.length then some st
      else
        match loopBody string font fm st with
        | none => none
        | some st1 => writeLoop string font fm fuel st1 := rfl

theorem writeLoop_of_stateAfter {string : List Nat} {font : Font} {fm : FontMetrics}
    (n fuel : Nat) (st0 st : WState) (h : stateAfter string font fm n st0 = some st) :
    writeLoop string font fm (fuel + n) st0 = writeLoop string font fm fuel st := by
  induction n generalizing st0 with
  | zero =>
    simp only [stateAfter, Option.some.injEq] at h
    subst h; rfl
  | succ n ih =>
    unfold stateAfter at h
    split_ifs at h with h1 h2
    cases hb : loopBody string font fm st0 with
    | none => simp [hb] at h
    | some st1 =>
      simp only [hb, Option.some_bind] at h
      rw [← Nat.add_assoc, writeLoop_succ]
      simp only [h1, h2, if_false, hb]
      exact ih st1 h

theorem stateAfter_of_writeLoop {string : List Nat} {font : Font} {fm : FontMetrics}
    (fuel : Nat) (st0 st : WState) (h : writeLoop string font fm fuel st0 = some st) :
    ∃ n, stateAfter string font fm n st0 = some st ∧ st.strPos = st0.strPos + n := by
  induction fuel generalizing st0 with
  | zero => simp [writeLoop] at h
  | succ fuel ih =>
    unfold writeLoop at h
    split_ifs at h with h1 h2
    · cases h; exact ⟨0, rfl, rfl⟩
    · cases h; exact ⟨0, rfl, rfl⟩
    · cases hb : loopBody string font fm st0 with
      | none => simp [hb] at h
      | some st1 =>
        simp only [hb] at h
        obtain ⟨n, hn, hs⟩ := ih st1 h
        refine ⟨n + 1, ?_, ?_⟩
        · unfold stateAfter
          simp only [h1, h2, if_false, hb, Option.some_bind]
          exact hn
        · rw [hs, (loopBody_indices hb).1]; omega

/-- The loop never uses up its bound: a call without result is a call one of
whose iterations throws. -/
theorem writeLoop_eq_none {string : List Nat} {font : Font} {fm : FontMetrics}
    (fuel : Nat) (st : WState)
    (hfuel : (string.length - st.strPos) + (st.vertexArray.length - st.arrayPos) < fuel)
    (h : writeLoop string font fm fuel st = none) :
    ∃ n st1, stateAfter string font fm n st = some st1 ∧ loopBody string font fm st1 = none := by
  induction fuel generalizing st with
  | zero => omega
  | succ fuel ih =>
    rw [writeLoop_succ] at h
    split_ifs at h with h1 h2
    cases hbody : loopBody string font fm st with
    | none => exact ⟨0, st, rfl, hbody⟩
    | some st1 =>
      simp only [hbody] at h
      obtain ⟨hs, hl, ha⟩ := loopBody_indices hbody
      have hlt : (string.length - st1.strPos) + (st1.vertexArray.length - st1.arrayPos) < fuel := by
        simp only [glyphFloatCount] at h2
        by_cases hlt : st.strPos < string.length
        · have : st.arrayPos ≤ st1.arrayPos := by rw [ha]; omega
          omega
        · have hnone : string[st.strPos]? = none := by
            rw [List.getElem?_eq_none_iff]; omega
          rw [hnone] at ha
          simp [isGlyphCode] at ha
          omega
      obtain ⟨n, st2, hn, hb2⟩ := ih st1 hlt h
      refine ⟨n + 1, st2, ?_, hb2⟩
      unfold stateAfter
      simp only [h1, h2, if_false, hbody, Option.some_bind]
      exact hn

/-- A call of `writeString` without result has an iteration that throws. -/
theorem writeString_eq_none {string : List Nat} {font : Font} {fm : FontMetrics}
    {pos : ℚ × ℚ} {va : List ℚ} {strPos arrayPos : Nat}
    (h : writeString string font fm pos va strPos arrayPos = none) :
    ∃ n st1, stateAfter string font fm n (initState pos va strPos arrayPos) = some st1 ∧
      loopBody string font fm st1 = none := by
  rw [writeString_eq] at h
  cases hl : writeLoop string font fm (loopBound string va strPos)
      (initState pos va strPos arrayPos) with
  | some st => simp [hl] at h
  | none =>
    exact writeLoop_eq_none _ _ (by simp only [initState, loopBound]; omega) hl

theorem loopBody_append (A B : List Nat) (font : Font) (fm : FontMetrics) (st : WState)
    (h : st.strPos < A.length) :
    loopBody (A ++ B) font fm st = loopBody A font fm st := by
  unfold loopBody
  rw [List.getElem?_append_left h]

theorem stateAfter_append (A B : List Nat) (font : Font) (fm : FontMetrics) (n : Nat)
    (st0 : WState) (h : st0.strPos + n ≤ A.length) :
    stateAfter (A ++ B) font fm n st0 = stateAfter A font fm n st0 := by
  induction n generalizing st0 with
  | zero => rfl
  | succ n ih =>
    unfold stateAfter
    have h1 : ¬ st0.strPos = (A ++ B).length := by rw [List.length_append]; omega
    have h2 : ¬ st0.strPos = A.length := by omega
    simp only [h1, h2, if_false]
    split_ifs
    · rfl
    · rw [loopBody_append A B font fm st0 (by omega)]
      cases hb : loopBody A font fm st0 with
      | none => rfl
      | some st1 =>
        simp only [Option.some_bind]
        exact ih st1 (by rw [(loopBody_indices hb).1]; omega)

theorem loopBody_frame {string : List Nat} {font : Font} {fm : FontMetrics} {st st1 : WState}
    (h : loopBody string font fm st = some st1) (i : Nat) (hi : i < st.arrayPos) :
    st1.vertexArray[i]? = st.vertexArray[i]? := by
  unfold loopBody at h
  simp only at h
  split_ifs at h with h1 h2
  · cases h; unfold newlineState; cases st.cpos <;> simp
  · cases h; unfold spaceState; cases st.cpos <;> simp
  · cases hg : glyphOf font string[st.strPos]? with
    | none => simp [hg] at h
    | some cm =>
      obtain ⟨code, m⟩ := cm
      simp only [hg, Option.some.injEq] at h
      subst h
      simp only [glyphState]
      exact copyVertices_getElem_of_lt _ _ _ _ hi

theorem writeLoop_frame {string : List Nat} {font : Font} {fm : FontMetrics}
    (fuel : Nat) (st st2 : WState) (h : writeLoop string font fm fuel st = some st2)
    (i : Nat) (hi : i < st.arrayPos) : st2.vertexArray[i]? = st.vertexArray[i]? := by
  induction fuel generalizing st with
  | zero => simp [writeLoop] at h
  | succ fuel ih =>
    unfold writeLoop at h
    split_ifs at h with h1 h2
    · cases h; rfl
    · cases h; rfl
    · cases hb : loopBody string font fm st with
      | none => simp [hb] at h
      | some st1 =>
        simp only [hb] at h
        have ha := (loopBody_indices hb).2.2
        rw [ih st1 h (by omega), loopBody_frame hb i hi]

theorem loopBody_shift (A B : List Nat) (font : Font) (fm : FontMetrics) (st : WState) :
    loopBody (A ++ B) font fm (st.shift A.length)
      = (loopBody B font fm st).map (WState.shift A.length) := by
  have hget : (A ++ B)[st.strPos + A.length]? = B[st.strPos]? := by
    rw [List.getElem?_append_right (by omega)]
    simp
  unfold loopBody
  simp only [WState.shift, hget]
  split_ifs
  · unfold newlineState WState.pen; cases st.cpos <;> simp [WState.shift, Nat.add_right_comm]
  · unfold spaceState; cases st.cpos <;> simp [WState.shift, Nat.add_right_comm]
  · cases hg : glyphOf font B[st.strPos]? with
    | none => rfl
    | some cm =>
      obtain ⟨code, m⟩ := cm
      simp [glyphState, WState.pen, WState.shift, Nat.add_right_comm]

theorem writeLoop_shift (A B : List Nat) (font : Font) (fm : FontMetrics) (fuel : Nat)
    (st : WState) :
    writeLoop (A ++ B) font fm fuel (st.shift A.length)
      = (writeLoop B font fm fuel st).map (WState.shift A.length) := by
  induction fuel generalizing st with
  | zero => rfl
  | succ fuel ih =>
    unfold writeLoop
    rw [loopBody_shift]
    have e1 : ((st.shift A.length).strPos = (A ++ B).length) ↔ (st.strPos = B.length) := by
      simp only [WState.shift, List.length_append]; omega
    simp only [e1]
    by_cases h1 : st.strPos = B.length
    · simp [h1]
    · simp only [h1, if_false]
      by_cases h2 : st.arrayPos + glyphFloatCount ≥ st.vertexArray.length
      · have : (st.shift A.length).arrayPos + glyphFloatCount
            ≥ (st.shift A.length).vertexArray.length := h2
        simp [h2, this]
      · have : ¬ (st.shift A.length).arrayPos + glyphFloatCount
            ≥ (st.shift A.length).vertexArray.length := h2
        simp only [h2, this, if_false]
        cases hb : loopBody B font fm st with
        | none => rfl
        | some st1 => simp only [Option.map_some']; exact ih st1

theorem resultOf_shift (fm : FontMetrics) (k : Nat) (st : WState) :
    resultOf fm (st.shift k) = (resultOf fm st).shift k := rfl

/-- Resuming at the index `A.length` of `A ++ B` is laying out `B` from index 0. -/
theorem writeString_append_resume (A B : List Nat) (font : Font) (fm : FontMetrics)
    (pos : ℚ × ℚ) (va : List ℚ) (arrayPos : Nat) :
    writeString (A ++ B) font fm pos va A.length arrayPos
      = (writeString B font fm pos va 0 arrayPos).map (WriteResult.shift A.length) := by
  rw [writeString_eq, writeString_eq]
  have hb : loopBound (A ++ B) va A.length = loopBound B va 0 := by
    simp [loopBound]
  have hi : initState pos va A.length arrayPos = (initState pos va 0 arrayPos).shift A.length := by
    simp [initState, WState.shift]
  rw [hb, hi, writeLoop_shift]
  cases writeLoop B font fm (loopBound B va 0) (initState pos va 0 arrayPos) with
  | none => rfl
  | some st => rfl

theorem glyphCount_append (A B : List Nat) : glyphCount (A ++ B) = glyphCount A + glyphCount B := by
  simp [glyphCount, List.countP_append]

theorem glyphCount_take_le (l : List Nat) (n : Nat) : glyphCount (l.take n) ≤ glyphCount l :=
  List.Sublist.countP_le _ (List.take_sublist n l)

/-- With room for one glyph more than the rest of the string has, the loop
consumes the whole string. -/
theorem writeLoop_full {string : List Nat} {font : Font} {fm : FontMetrics}
    (fuel : Nat) (st st2 : WState) (h : writeLoop string font fm fuel st = some st2)
    (hpos : st.strPos ≤ string.length)
    (hcap : st.arrayPos + 30 * glyphCount (string.drop st.strPos) + 30 < st.vertexArray.length) :
    st2.strPos = string.length ∧
      st2.arrayPos = st.arrayPos + 30 * glyphCount (string.drop st.strPos) ∧
      st2.vertexArray.length = st.vertexArray.length := by
  obtain ⟨i1, i2, i3, i4, -, i6⟩ := writeLoop_indices fuel st st2 h hpos
  have hle := glyphCount_take_le (string.drop st.strPos) (st2.strPos - st.strPos)
  have hs : st2.strPos = string.length := by
    rcases i6 with h6 | h6
    · exact h6
    · omega
  refine ⟨hs, ?_, i3⟩
  rw [i4, hs, List.take_of_length_le (by simp)]

/-- C3, amended: for strings `A`, `B`, a font with an entry for the question mark
and a vertex array with room for one glyph more than `A ++ B` has, the call
on `A` returns `r` with `string_pos = A.length` and
`array_pos = 30 * glyphCount A`; the resumed call on `A ++ B` from these
indices, with any start position `pos2`, returns the same `string_pos` and
`array_pos` as the one call on `A ++ B` and leaves the same values below
`r.array_pos` (the glyphs of `A`); and it is the call on `B` alone from `pos2`
with the string index moved by `A.length`: the glyphs of `B` are laid out from
the start position given to the second call, without kerning against `A`. -/
theorem writeString_resume (A B : List Nat) (font : Font) (fm : FontMetrics)
    (pos pos2 : ℚ × ℚ) (vertexArray : List ℚ)
    (hq : (font.chars CHAR_CODES.QUESTION_MARK).isSome)
    (hcap : 30 * glyphCount (A ++ B) + 30 < vertexArray.length) :
    ∃ r one two rb,
      writeString A font fm pos vertexArray 0 0 = some r ∧
      writeString (A ++ B) font fm pos vertexArray 0 0 = some one ∧
      writeString (A ++ B) font fm pos2 r.vertexArray r.string_pos r.array_pos = some two ∧
      writeString B font fm pos2 r.vertexArray 0 r.array_pos = some rb ∧
      r.string_pos = A.length ∧ r.array_pos = 30 * glyphCount A ∧
      two.string_pos = one.string_pos ∧ two.array_pos = one.array_pos ∧
      (∀ i, i < r.array_pos → two.vertexArray[i]? = one.vertexArray[i]?) ∧
      two = rb.shift A.length := by
  have hgc := glyphCount_append A B
  -- the call on `A`
  obtain ⟨stA, hA, hrA⟩ := writeString_isSome A font fm pos vertexArray 0 0 hq
  obtain ⟨hAs, hAa, hAl⟩ := writeLoop_full _ _ _ hA (Nat.zero_le _)
    (by simp only [initState, List.drop_zero]; omega)
  simp only [initState, List.drop_zero, Nat.zero_add] at hAs hAa hAl
  obtain ⟨n, hn, hns⟩ := stateAfter_of_writeLoop _ _ _ hA
  have hnA : n = A.length := by simp only [initState] at hns; omega
  subst hnA
  -- the one call on `A ++ B`
  have hnAB : stateAfter (A ++ B) font fm A.length (initState pos vertexArray 0 0) = some stA := by
    rw [stateAfter_append A B font fm A.length _ (by simp [initState])]; exact hn
  obtain ⟨st1, h1, hr1⟩ := writeString_isSome (A ++ B) font fm pos vertexArray 0 0 hq
  have hdrop : (A ++ B).drop A.length = B := List.drop_left A B
  have hb1 : loopBound (A ++ B) vertexArray 0 = (B.length + vertexArray.length + 1) + A.length := by
    simp only [loopBound, List.length_append]; omega
  rw [hb1, writeLoop_of_stateAfter _ _ _ _ hnAB] at h1
  obtain ⟨h1s, h1a, -⟩ := writeLoop_full _ _ _ h1 (by rw [hAs]; simp)
    (by rw [hAs, hdrop, hAa, hAl]; omega)
  rw [hAs, hdrop] at h1a
  -- the resumed call
  obtain ⟨st2, h2, hr2⟩ := writeString_isSome (A ++ B) font fm pos2 stA.vertexArray
    A.length stA.arrayPos hq
  obtain ⟨h2s, h2a, -⟩ := writeLoop_full _ _ _ h2 (by simp [initState])
    (by simp only [initState]; rw [hdrop, hAa, hAl]; omega)
  simp only [initState] at h2a
  rw [hdrop] at h2a
  -- the call on `B` alone
  obtain ⟨stB, -, hrB⟩ := writeString_isSome B font fm pos2 stA.vertexArray 0 stA.arrayPos hq
  refine ⟨resultOf fm stA, resultOf fm st1, resultOf fm st2, resultOf fm stB, hrA, hr1, ?_, ?_,
    hAs, hAa, ?_, ?_, ?_, ?_⟩
  · show writeString (A ++ B) font fm pos2 stA.vertexArray stA.strPos stA.arrayPos = _
    rw [hAs]; exact hr2
  · exact hrB
  · show st2.strPos = st1.strPos
    rw [h2s, h1s]
  · show st2.arrayPos = st1.arrayPos
    rw [h2a, h1a]
  · intro i hi
    have hi2 : i < stA.arrayPos := hi
    show st2.vertexArray[i]? = st1.vertexArray[i]?
    rw [writeLoop_frame _ _ _ h2 i hi2, writeLoop_frame _ _ _ h1 i hi2]
    rfl
  · have := writeString_append_resume A B font fm pos2 stA.vertexArray stA.arrayPos
    rw [hr2, hrB] at this
    simpa using this

theorem loopBody_prevCharCode {string : List Nat} {font : Font} {fm : FontMetrics}
    {st st1 : WState} (h : loopBody string font fm st = some st1) :
    st1.prevCharCode = memoryAfter font string[st.strPos]? := by
  unfold loopBody at h
  simp only at h
  split_ifs at h with h1 h2
  · cases h; unfold newlineState; cases st.cpos <;> simp [memoryAfter, h1]
  · cases h; unfold spaceState; cases st.cpos <;> simp [memoryAfter, h2]
  · cases hg : glyphOf font string[st.strPos]? with
    | none => simp [hg] at h
    | some cm =>
      obtain ⟨code, m⟩ := cm
      simp only [hg, Option.some.injEq] at h
      subst h
      simp [glyphState, memoryAfter, h1, h2, hg]

theorem stateAfter_memory {string : List Nat} {font : Font} {fm : FontMetrics}
    (n : Nat) (st0 st : WState) (h : stateAfter string font fm n st0 = some st) :
    st.strPos = st0.strPos + n ∧
      (0 < n → st.prevCharCode = memoryAfter font string[st.strPos - 1]?) := by
  induction n generalizing st0 with
  | zero =>
    simp only [stateAfter, Option.some.injEq] at h
    subst h
    simp
  | succ n ih =>
    unfold stateAfter at h
    split_ifs at h with h1 h2
    cases hb : loopBody string font fm st0 with
    | none => simp [hb] at h
    | some st1 =>
      simp only [hb, Option.some_bind] at h
      obtain ⟨hs, hm⟩ := ih st1 h
      have hs1 := (loopBody_indices hb).1
      refine ⟨by omega, fun _ => ?_⟩
      rcases Nat.eq_zero_or_pos n with hn | hn
      · subst hn
        simp only [stateAfter, Option.some.injEq] at h
        subst h
        rw [loopBody_prevCharCode hb, hs1]
        simp
      · exact hm hn

theorem stateAfter_succ (string : List Nat) (font : Font) (fm : FontMetrics)
    (n : Nat) (st0 : WState) :
    stateAfter string font fm (n + 1) st0
      = (stateAfter string font fm n st0).bind (stateAfter string font fm 1) := by
  induction n generalizing st0 with
  | zero => rfl
  | succ n ih =>
    conv_lhs => unfold stateAfter
    conv_rhs => unfold stateAfter
    split_ifs
    · rfl
    · rfl
    · cases hb : loopBody string font fm st0 with
      | none => rfl
      | some st1 => simp only [Option.some_bind]; exact ih st1

theorem kernOf_eq_kerningRule (font : Font) (string : List Nat) (strPos0 n : Nat) (st : WState)
    (cur : Nat) (hs : st.strPos = strPos0 + n)
    (h0 : n = 0 → st.prevCharCode = none)
    (hm : 0 < n → st.prevCharCode = memoryAfter font string[st.strPos - 1]?) :
    kernOf font st.prevCharCode cur = kerningRule font string strPos0 st.strPos cur := by
  unfold kerningRule
  rcases Nat.eq_zero_or_pos n with hn | hn
  · rw [h0 hn]
    simp [kernOf, hs, hn]
  · rw [hm hn]
    have : ¬ st.strPos ≤ strPos0 := by omega
    simp only [this, if_false, memoryAfter]
    split_ifs with hc
    · rfl
    · cases hg : glyphOf font string[st.strPos - 1]? with
      | none => rfl
      | some cm =>
        obtain ⟨prev, m⟩ := cm
        simp only [Option.map_some', kernOf]
        cases font.kerning prev with
        | none => rfl
        | some row =>
          show (match row cur with | none => 0 | some k => k) = (row cur).getD 0
          cases row cur <;> rfl

/-- C7: the kerning rule. When a call of `writeString` reaches its iteration
number `n` in state `st` and the character there is drawn as a glyph with code
`code` (63 when substituted) and metrics `m`, the iteration calls `charRect`
with the kern `kerningRule`: the entry of `font.kerning` for the previous and
the current code when the character just before was drawn as a glyph by this
call and the entry exists, `0` otherwise. For every kern, `charRect` shifts
both the left edge of the glyph and the pen advance by `pixelSize * kern`. -/
theorem writeString_kerning (string : List Nat) (font : Font) (fm : FontMetrics)
    (pos : ℚ × ℚ) (vertexArray : List ℚ) (strPos arrayPos n : Nat) (st : WState)
    (code : Nat) (m : CharMetrics)
    (hreach : stateAfter string font fm n (initState pos vertexArray strPos arrayPos) = some st)
    (hend : st.strPos ≠ string.length)
    (hroom : st.arrayPos + glyphFloatCount < st.vertexArray.length)
    (hnl : string[st.strPos]? ≠ some CHAR_CODES.NEWLINE)
    (hsp : string[st.strPos]? ≠ some CHAR_CODES.SPACE)
    (hg : glyphOf font string[st.strPos]? = some (code, m)) :
    st.strPos = strPos + n ∧
    stateAfter string font fm (n + 1) (initState pos vertexArray strPos arrayPos)
      = some (WState.mk (st.strPos + 1) (st.arrayPos + 30) (some code) st.pos
          (some (charRect st.pen font fm m (kerningRule font string strPos st.strPos code)).pos)
          st.xMax
          (copyVertices
            (charRect st.pen font fm m (kerningRule font string strPos st.strPos code)).vertices
            st.vertexArray st.arrayPos)) ∧
    (∀ (p : ℚ × ℚ) (kern : ℚ),
      (charRect p font fm m kern).vertices[0]?
          = some (p.1 + fm.pixelSize * (m.BEARING_X - font.falloff * fm.scaleTexturePxToMetrics)
              + fm.pixelSize * kern) ∧
        (charRect p font fm m kern).pos
          = (p.1 + fm.pixelSize * m.ADVANCE_X + fm.pixelSize * kern, p.2)) := by
  obtain ⟨hs, hm⟩ := stateAfter_memory n _ st hreach
  simp only [initState] at hs
  have h0 : n = 0 → st.prevCharCode = none := by
    intro hn
    subst hn
    simp only [stateAfter, Option.some.injEq] at hreach
    subst hreach
    rfl
  have hk := kernOf_eq_kerningRule font string strPos n st code hs h0 hm
  refine ⟨hs, ?_, ?_⟩
  · rw [stateAfter_succ, hreach, Option.some_bind]
    have hroom2 : ¬ st.arrayPos + glyphFloatCount ≥ st.vertexArray.length := by omega
    simp only [stateAfter, hend, hroom2, if_false, loopBody, hnl, hsp, hg, Option.some_bind,
      glyphState, hk, charRect_vertices_length]
  · intro p kern
    constructor
    · simp only [charRect, List.getElem?_cons_zero, Option.some.injEq]
      ring
    · simp only [charRect, Prod.mk.injEq, and_true]
      ring

/-! ## `writeString` on concrete inputs -/

/-- Witness of C4: code 200 is absent from `demoFont`. -/
theorem writeString_missing_glyph_witness :
    substituteMissing demoFont [65, 200, 32, 66] = [65, 63, 32, 66] ∧
    ∃ r, writeString [65, 200, 32, 66] demoFont demoMetrics (0, 0) (emptyArray 120) 0 0 = some r ∧
      writeString (substituteMissing demoFont [65, 200, 32, 66]) demoFont demoMetrics (0, 0)
        (emptyArray 120) 0 0 = some r :=
  ⟨by decide, writeString_missing_glyph [65, 200, 32, 66] demoFont demoMetrics (0, 0)
    (emptyArray 120) 0 0 (by decide)⟩

/-- C2 at the failing input: with a vertex array of exactly 30 scalars and
`arrayPos = 0` there is room for the glyph of `"A"`, yet `writeString` stops
before it (`string_pos = 0`, `array_pos = 0`, array untouched); one more
scalar of room and the glyph is placed. -/
theorem writeString_capacity_off_by_one :
    writeString [65] demoFont demoMetrics (0, 0) (emptyArray 30) 0 0
      = some (WriteResult.mk (Rect.mk 0 0 0 26) 0 0 (emptyArray 30) (0, 0)) ∧
    (writeString [65] demoFont demoMetrics (0, 0) (emptyArray 31) 0 0).map
      (fun r => (r.string_pos, r.array_pos)) = some (1, 30) := by
  decide!

/-- C3 as stated fails: for `A = "A"`, `B = "B"` and an array of 90 scalars the
call on `A` returns indices 1 and 30 and leaves the start position `(0, 0)`;
the one call on `A ++ B` puts the left edge of `B` (index 30) at `9`, the
resumed call puts it at `-2`, and the two arrays differ. -/
theorem writeString_resume_differs :
    (writeString [65] demoFont demoMetrics (0, 0) (emptyArray 90) 0 0).map
        (fun r => (r.string_pos, r.array_pos, r.pos)) = some (1, 30, (0, 0)) ∧
    (writeString ([65] ++ [66]) demoFont demoMetrics (0, 0) (emptyArray 90) 0 0).map
        (fun one => one.vertexArray[30]?) = some (some (9 : ℚ)) ∧
    ((writeString [65] demoFont demoMetrics (0, 0) (emptyArray 90) 0 0).bind
        (fun r => writeString ([65] ++ [66]) demoFont demoMetrics (0, 0) r.vertexArray
          r.string_pos r.array_pos)).map (fun two => two.vertexArray[30]?)
      = some (some (-2 : ℚ)) ∧
    ((writeString [65] demoFont demoMetrics (0, 0) (emptyArray 90) 0 0).bind
        (fun r => writeString ([65] ++ [66]) demoFont demoMetrics (0, 0) r.vertexArray
          r.string_pos r.array_pos)).map (fun two => two.vertexArray)
      ≠ (writeString ([65] ++ [66]) demoFont demoMetrics (0, 0) (emptyArray 90) 0 0).map
        (fun one => one.vertexArray) := by
  decide!

/-- Witness of the amended C3: `A = "A"`, `B = "B"`, an array of 120 scalars. -/
theorem writeString_resume_witness :
    ∃ r one two rb,
      writeString [65] demoFont demoMetrics (0, 0) (emptyArray 120) 0 0 = some r ∧
      writeString ([65] ++ [66]) demoFont demoMetrics (0, 0) (emptyArray 120) 0 0 = some one ∧
      writeString ([65] ++ [66]) demoFont demoMetrics (0, 0) r.vertexArray r.string_pos r.array_pos
        = some two ∧
      writeString [66] demoFont demoMetrics (0, 0) r.vertexArray 0 r.array_pos = some rb ∧
      r.string_pos = [65].length ∧ r.array_pos = 30 * glyphCount [65] ∧
      two.string_pos = one.string_pos ∧ two.array_pos = one.array_pos ∧
      (∀ i, i < r.array_pos → two.vertexArray[i]? = one.vertexArray[i]?) ∧
      two = rb.shift [65].length :=
  writeString_resume [65] [66] demoFont demoMetrics (0, 0) (0, 0) (emptyArray 120)
    (by decide) (by decide)

/-- C5 at the failing input: for the string space, newline, `A` laid out from
`(0, 0)` the space moves the caller's `pos` itself (`cpos` is the same array),
so the newline resets the pen to `x = 5`, not to the start `x = 0`: the left
edge of `A` is `3`, where the start position gives `-2`, and the caller's array
is left at `(5, -26)`. -/
theorem writeString_newline_after_spaces :
    (writeString [32, 10, 65] demoFont demoMetrics (0, 0) (emptyArray 60) 0 0).map
      (fun r => (r.vertexArray[0]?, r.pos, r.string_pos))
      = some (some 3, (5, -26), 3) ∧
    (0 : ℚ) + demoMetrics.pixelSize
        * (0 - demoFont.falloff * demoMetrics.scaleTexturePxToMetrics) = -2 := by
  decide!

/-- C6 at the failing input: the one-line string `"A"` laid out from `(0, 0)` has
the returned width `0`, although the pen ends at `x = 12`; only a newline
flushes the line into the width (`"A\n"` gives `12`). -/
theorem writeString_width_last_line :
    (writeString [65] demoFont demoMetrics (0, 0) (emptyArray 60) 0 0).map
      (fun r => (r.rect.width, r.string_pos, r.array_pos)) = some (0, 1, 30) ∧
    (writeString [65, 10] demoFont demoMetrics (0, 0) (emptyArray 90) 0 0).map
      (fun r => (r.rect.width, r.string_pos, r.array_pos)) = some (12, 2, 30) := by
  decide!

/-- Witness of C7: the glyph `B` after `A` in `"AB"`, the pair with kerning
`-1/20` in `demoFont`. -/
theorem writeString_kerning_witness :
    demoStateAfterA.strPos = 0 + 1 ∧
    stateAfter [65, 66] demoFont demoMetrics (1 + 1) (initState (0, 0) (emptyArray 90) 0 0)
      = some (WState.mk (demoStateAfterA.strPos + 1) (demoStateAfterA.arrayPos + 30) (some 66)
          demoStateAfterA.pos
          (some (charRect demoStateAfterA.pen demoFont demoMetrics
            (CharMetrics.mk 40 0 80 48 0 1 (1 / 2) 0)
            (kerningRule demoFont [65, 66] 0 demoStateAfterA.strPos 66)).pos)
          demoStateAfterA.xMax
          (copyVertices
            (charRect demoStateAfterA.pen demoFont demoMetrics
              (CharMetrics.mk 40 0 80 48 0 1 (1 / 2) 0)
              (kerningRule demoFont [65, 66] 0 demoStateAfterA.strPos 66)).vertices
            demoStateAfterA.vertexArray demoStateAfterA.arrayPos)) ∧
    (∀ (p : ℚ × ℚ) (kern : ℚ),
      (charRect p demoFont demoMetrics (CharMetrics.mk 40 0 80 48 0 1 (1 / 2) 0) kern).vertices[0]?
          = some (p.1 + demoMetrics.pixelSize
                * ((CharMetrics.mk 40 0 80 48 0 1 (1 / 2) 0).BEARING_X
                    - demoFont.falloff * demoMetrics.scaleTexturePxToMetrics)
              + demoMetrics.pixelSize * kern) ∧
        (charRect p demoFont demoMetrics (CharMetrics.mk 40 0 80 48 0 1 (1 / 2) 0) kern).pos
          = (p.1 + demoMetrics.pixelSize * (CharMetrics.mk 40 0 80 48 0 1 (1 / 2) 0).ADVANCE_X
              + demoMetrics.pixelSize * kern, p.2)) :=
  writeString_kerning [65, 66] demoFont demoMetrics (0, 0) (emptyArray 90) 0 0 1 demoStateAfterA
    66 (CharMetrics.mk 40 0 80 48 0 1 (1 / 2) 0)
    (by decide!) (by decide) (by decide) (by decide) (by decide) (by decide!)

/-- The kerning rule evaluated for `B` after `A`, and for `B` at the start of a
call. -/
theorem kerningRule_demo :
    kerningRule demoFont [65, 66] 0 1 66 = -1 / 20 ∧ kerningRule demoFont [65, 66] 1 1 66 = 0 ∧
      kerningRule demoFont [65, 32, 66] 0 2 66 = 0 := by
  decide!

/-! ## Subpixel coverage -/

/-- The shader function is the coverage vector of its slope and flip decision. -/
theorem estimateSubpixelCoverage_eq (grad : ℚ × ℚ) (pc lvl : ℚ) (isBgr isVertical : Bool) :
    estimateSubpixelCoverage grad pc lvl isBgr isVertical
      = coverageOf (slopeOf grad lvl isVertical) pc
          (flipOf (slopeOf grad lvl isVertical) isBgr isVertical) := rfl

theorem coverageOf_not (slope pc : ℚ) (f : Bool) :
    coverageOf slope pc (!f) = (coverageOf slope pc f).reversed := by
  cases f <;> simp [coverageOf, Vec3.reversed]

theorem coverageOf_zero (pc : ℚ) (f g : Bool) : coverageOf 0 pc f = coverageOf 0 pc g := by
  simp [coverageOf]

theorem coverageOf_zero_reversed (pc : ℚ) (f : Bool) :
    (coverageOf 0 pc f).reversed = coverageOf 0 pc f := by
  simp [coverageOf, Vec3.reversed]

theorem coverageOf_neg (slope pc : ℚ) (f : Bool) :
    coverageOf (-slope) pc f = coverageOf slope pc f := by
  simp [coverageOf]

theorem slopeOf_neg (grad : ℚ × ℚ) (lvl : ℚ) (v : Bool) :
    slopeOf (-grad.1, -grad.2) lvl v = - slopeOf grad lvl v := by
  cases v <;> simp [slopeOf]

theorem flipOf_not (slope : ℚ) (b v : Bool) : flipOf slope (!b) v = !(flipOf slope b v) := by
  cases b <;> cases v <;> simp [flipOf]

theorem flipOf_neg (slope : ℚ) (b v : Bool) (h : slope ≠ 0) :
    flipOf (-slope) b v = !(flipOf slope b v) := by
  rcases lt_or_gt_of_ne h with h1 | h1
  · have h2 : ¬ (0 < slope) := not_lt.mpr h1.le
    have h3 : ¬ (0 ≤ slope) := not_le.mpr h1
    cases b <;> cases v <;> simp [flipOf, h1, h2, h3, h1.le]
  · have h2 : ¬ (slope < 0) := not_lt.mpr (le_of_lt h1)
    have h3 : ¬ (slope ≤ 0) := not_le.mpr h1
    cases b <;> cases v <;> simp [flipOf, h1, h2, h3, le_of_lt h1]

/-- C8: with `subpixelLevel = 0` and a pixel coverage in `[0, 1]`, the three
channels returned by `estimateSubpixelCoverage` all equal the pixel coverage,
for every gradient and every `isBgr`, `isVertical`. -/
theorem estimateSubpixelCoverage_level_zero (grad : ℚ × ℚ) (pixelCoverage : ℚ)
    (isBgr isVertical : Bool) (h0 : 0 ≤ pixelCoverage) (h1 : pixelCoverage ≤ 1) :
    estimateSubpixelCoverage grad pixelCoverage 0 isBgr isVertical
      = Vec3.mk pixelCoverage pixelCoverage pixelCoverage := by
  simp [estimateSubpixelCoverage, clamp01, h0, h1]

/-- Witness of C8: coverage `1/3`, gradient `(1, -1)`, BGR, horizontal. -/
theorem estimateSubpixelCoverage_level_zero_witness :
    estimateSubpixelCoverage (1, -1) (1 / 3) 0 true false = Vec3.mk (1 / 3) (1 / 3) (1 / 3) :=
  estimateSubpixelCoverage_level_zero (1, -1) (1 / 3) true false (by norm_num) (by norm_num)

/-- C9: flip symmetry of `estimateSubpixelCoverage`. Negating `isBgr` reverses
the channel vector, negating the gradient reverses it, and negating both
gives the original vector back. -/
theorem estimateSubpixelCoverage_flip (grad : ℚ × ℚ) (pc lvl : ℚ) (isBgr isVertical : Bool) :
    estimateSubpixelCoverage grad pc lvl (!isBgr) isVertical
        = (estimateSubpixelCoverage grad pc lvl isBgr isVertical).reversed
    ∧ estimateSubpixelCoverage (-grad.1, -grad.2) pc lvl isBgr isVertical
        = (estimateSubpixelCoverage grad pc lvl isBgr isVertical).reversed
    ∧ estimateSubpixelCoverage (-grad.1, -grad.2) pc lvl (!isBgr) isVertical
        = estimateSubpixelCoverage grad pc lvl isBgr isVertical := by
  simp only [estimateSubpixelCoverage_eq, slopeOf_neg, coverageOf_neg]
  refine ⟨?_, ?_, ?_⟩
  · rw [flipOf_not, coverageOf_not]
  · by_cases h : slopeOf grad lvl isVertical = 0
    · rw [h, coverageOf_zero_reversed]
      exact coverageOf_zero pc _ _
    · rw [flipOf_neg _ _ _ h, coverageOf_not]
  · by_cases h : slopeOf grad lvl isVertical = 0
    · rw [h]
      exact coverageOf_zero pc _ _
    · rw [flipOf_neg _ _ _ h, flipOf_not, Bool.not_not]

/-! ## `fontMetrics` -/

/-- C10 as stated fails: at the pixel size `1/4 > 0` the cap scale is
`Math.round(0.25) = 0`, which is not positive. -/
theorem fontMetrics_capScale_not_positive :
    (0 : ℚ) < 1 / 4 ∧ ¬ (0 < (fontMetrics demoFont (1 / 4) 0).capScale) := by
  decide!

/-- C10, amended: for every pixel size `s ≥ 1/2`, `capScale` is `round(s)` and
a positive integer. -/
theorem fontMetrics_capScale (font : Font) (s moreLineGap : ℚ) (hs : 1 / 2 ≤ s) :
    (fontMetrics font s moreLineGap).capScale = (mathRound s : ℚ) ∧ 0 < mathRound s := by
  refine ⟨rfl, ?_⟩
  unfold mathRound
  rw [Int.floor_pos]
  linarith

/-- Witness of the amended C10 at 20 pixels. -/
theorem fontMetrics_capScale_witness :
    (1 / 2 : ℚ) ≤ 20 ∧
      ((fontMetrics demoFont 20 0).capScale = (mathRound 20 : ℚ) ∧ 0 < mathRound 20) :=
  ⟨by norm_num, fontMetrics_capScale demoFont 20 0 (by norm_num)⟩

/-! ## Rounding to binary64 -/

namespace Binary64

theorem pow2_eq (e : ℤ) : pow2 e = (2 : ℚ) ^ e := by
  unfold pow2
  split_ifs with h
  · obtain ⟨n, rfl⟩ := Int.eq_ofNat_of_zero_le h
    simp
  · have h' : 0 ≤ -e := by omega
    obtain ⟨n, hn⟩ := Int.eq_ofNat_of_zero_le h'
    have he : e = -(n : ℤ) := by omega
    subst he
    simp

theorem pow2_pos (e : ℤ) : 0 < pow2 e := by
  rw [pow2_eq]; positivity

theorem pow2_le_pow2 {a b : ℤ} (h : a ≤ b) : pow2 a ≤ pow2 b := by
  rw [pow2_eq, pow2_eq]
  exact zpow_le_zpow_right₀ (by norm_num) h

theorem pow2_add (a b : ℤ) : pow2 (a + b) = pow2 a * pow2 b := by
  rw [pow2_eq, pow2_eq, pow2_eq, zpow_add₀ (by norm_num : (2 : ℚ) ≠ 0)]

theorem pow2_natCast (k : ℕ) : pow2 (k : ℤ) = (2 : ℚ) ^ k := by
  rw [pow2_eq, zpow_natCast]

/-- The function `bitLength` counts the binary digits, given fuel enough. -/
theorem bitLength_spec (fuel n : Nat) (hf : n ≤ fuel) (hn : n ≠ 0) :
    2 ^ (bitLength fuel n - 1) ≤ n ∧ n < 2 ^ (bitLength fuel n) ∧ 1 ≤ bitLength fuel n := by
  induction fuel generalizing n with
  | zero => omega
  | succ fuel ih =>
    simp only [bitLength, hn, if_false]
    by_cases h2 : n / 2 = 0
    · have h1 : n = 1 := by omega
      subst h1
      have : bitLength fuel (1 / 2) = 0 := by
        cases fuel <;> simp [bitLength]
      simp [this]
    · obtain ⟨a, b, c⟩ := ih (n / 2) (by omega) h2
      refine ⟨?_, ?_, by omega⟩
      · have e : bitLength fuel (n / 2) + 1 - 1 = (bitLength fuel (n / 2) - 1) + 1 := by omega
        rw [e, pow_succ]
        omega
      · rw [pow_succ]
        omega

/-- The function `floorLog2` gives the binary exponent of a positive number. -/
theorem floorLog2_spec (x : ℚ) (hx : 0 < x) :
    pow2 (floorLog2 x) ≤ x ∧ x < pow2 (floorLog2 x + 1) := by
  have hnum : 0 < x.num := Rat.num_pos.mpr hx
  have hden : x.den ≠ 0 := x.den_nz
  have hnat : x.num.natAbs ≠ 0 := by omega
  obtain ⟨a1, a2, a3⟩ := bitLength_spec x.num.natAbs x.num.natAbs (le_refl _) hnat
  obtain ⟨b1, b2, b3⟩ := bitLength_spec x.den x.den (le_refl _) hden
  set A := bitLength x.num.natAbs x.num.natAbs with hA
  set B := bitLength x.den x.den with hB
  have hxeq : x = (x.num.natAbs : ℚ) / (x.den : ℚ) := by
    rw [Nat.cast_natAbs, abs_of_pos hnum, Rat.num_div_den]
  have hdpos : (0 : ℚ) < x.den := by exact_mod_cast Nat.pos_of_ne_zero hden
  have a1q : (2 : ℚ) ^ ((A : ℤ) - 1) ≤ (x.num.natAbs : ℚ) := by
    have : ((2 ^ (A - 1) : ℕ) : ℚ) ≤ (x.num.natAbs : ℚ) := by exact_mod_cast a1
    have e : ((A : ℤ) - 1) = ((A - 1 : ℕ) : ℤ) := by omega
    rw [e, zpow_natCast]; exact_mod_cast this
  have a2q : (x.num.natAbs : ℚ) < (2 : ℚ) ^ (A : ℤ) := by
    rw [zpow_natCast]; exact_mod_cast a2
  have b1q : (2 : ℚ) ^ ((B : ℤ) - 1) ≤ (x.den : ℚ) := by
    have : ((2 ^ (B - 1) : ℕ) : ℚ) ≤ (x.den : ℚ) := by exact_mod_cast b1
    have e : ((B : ℤ) - 1) = ((B - 1 : ℕ) : ℤ) := by omega
    rw [e, zpow_natCast]; exact_mod_cast this
  have b2q : (x.den : ℚ) < (2 : ℚ) ^ (B : ℤ) := by
    rw [zpow_natCast]; exact_mod_cast b2
  have two : (2 : ℚ) ≠ 0 := by norm_num
  have lo : (2 : ℚ) ^ ((A : ℤ) - B - 1) < x := by
    rw [hxeq, lt_div_iff₀ hdpos]
    calc (2 : ℚ) ^ ((A : ℤ) - B - 1) * x.den
        < (2 : ℚ) ^ ((A : ℤ) - B - 1) * (2 : ℚ) ^ (B : ℤ) :=
          mul_lt_mul_of_pos_left b2q (by positivity)
      _ = (2 : ℚ) ^ ((A : ℤ) - 1) := by rw [← zpow_add₀ two]; congr 1; ring
      _ ≤ _ := a1q
  have hi : x < (2 : ℚ) ^ ((A : ℤ) - B + 1) := by
    rw [hxeq, div_lt_iff₀ hdpos]
    calc (x.num.natAbs : ℚ) < (2 : ℚ) ^ (A : ℤ) := a2q
      _ = (2 : ℚ) ^ ((A : ℤ) - B + 1) * (2 : ℚ) ^ ((B : ℤ) - 1) := by
          rw [← zpow_add₀ two]; congr 1; ring
      _ ≤ (2 : ℚ) ^ ((A : ℤ) - B + 1) * x.den :=
          mul_le_mul_of_nonneg_left b1q (by positivity)
  unfold floorLog2
  simp only [← hA, ← hB]
  split_ifs with h
  · exact ⟨h, by rw [pow2_eq]; exact hi⟩
  · refine ⟨?_, ?_⟩
    · rw [pow2_eq]; exact le_of_lt lo
    · rw [show (A : ℤ) - B - 1 + 1 = (A : ℤ) - B by ring]
      exact lt_of_not_le h

theorem roundHalfEven_err (x : ℚ) : |(roundHalfEven x : ℚ) - x| ≤ 1 / 2 := by
  have h1 := Int.floor_le x
  have h2 := Int.lt_floor_add_one x
  unfold roundHalfEven
  simp only
  rw [abs_le]
  split_ifs with a b c
  · constructor <;> linarith
  · push_cast; constructor <;> linarith
  · constructor <;> linarith
  · push_cast; constructor <;> linarith

/-- The relative error of rounding in the normal range is at most `2 ^ -53`. -/
theorem round_err (x : ℚ) (hx : pow2 (-1022) ≤ |x|) :
    |round x - x| ≤ |x| / 2 ^ 53 := by
  have hxpos : 0 < |x| := lt_of_lt_of_le (pow2_pos _) hx
  have hx0 : x ≠ 0 := abs_pos.mp hxpos
  obtain ⟨l1, l2⟩ := floorLog2_spec |x| hxpos
  have he : -1022 ≤ floorLog2 |x| := by
    by_contra hcon
    have : floorLog2 |x| + 1 ≤ -1022 := by omega
    have h3 : pow2 (floorLog2 |x| + 1) ≤ pow2 (-1022) := pow2_le_pow2 this
    linarith
  have hu : ulp x = pow2 (floorLog2 |x| - 52) := by
    unfold ulp
    rw [max_eq_left (by omega)]
  have hupos : 0 < ulp x := by rw [hu]; exact pow2_pos _
  have herr := roundHalfEven_err (x / ulp x)
  unfold round
  simp only [hx0, if_false]
  have e1 : (roundHalfEven (x / ulp x) : ℚ) * ulp x - x
      = ((roundHalfEven (x / ulp x) : ℚ) - x / ulp x) * ulp x := by
    field_simp
  rw [e1, abs_mul, abs_of_pos hupos]
  have hub : ulp x / 2 ≤ |x| / 2 ^ 53 := by
    rw [hu, pow2_eq]
    rw [pow2_eq] at l1
    have : (2 : ℚ) ^ (floorLog2 |x| - 52) = (2 : ℚ) ^ (floorLog2 |x|) / 2 ^ 52 := by
      rw [zpow_sub₀ (by norm_num : (2 : ℚ) ≠ 0)]; norm_num
    rw [this]
    have hp : (0 : ℚ) < 2 ^ floorLog2 |x| := by positivity
    rw [div_div, div_le_div_iff₀ (by positivity) (by positivity)]
    nlinarith
  calc |(roundHalfEven (x / ulp x) : ℚ) - x / ulp x| * ulp x
      ≤ 1 / 2 * ulp x := mul_le_mul_of_nonneg_right herr (le_of_lt hupos)
    _ = ulp x / 2 := by ring
    _ ≤ _ := hub

theorem round_zero : round 0 = 0 := by
  simp [round]

/-- The model on known doubles: `0.1`, `0.3`, and the sum `0.1 + 0.2`, which is
`0.30000000000000004` and not the double `0.3`. -/
theorem round_examples :
    round (1 / 10) = 3602879701896397 / 36028797018963968 ∧
    round (3 / 10) = 5404319552844595 / 18014398509481984 ∧
    round (round (1 / 10) + round (2 / 10)) = 1351079888211149 / 4503599627370496 ∧
    round (1 / 2) = 1 / 2 ∧ round (-3) = -3 ∧
    round (pow2 (-1074) / 3) = 0 ∧ round (pow2 (-1074) * 2 / 3) = pow2 (-1074) := by
  decide!

end Binary64

theorem mathRound_zero : mathRound 0 = 0 := by
  unfold mathRound
  rw [Int.floor_eq_iff]
  norm_num

theorem mathRound_eq_of_abs_lt (x : ℚ) (n : ℤ) (h : |x - n| < 1 / 2) : mathRound x = n := by
  rw [abs_lt] at h
  unfold mathRound
  rw [Int.floor_eq_iff]
  constructor <;> linarith

theorem abs_sub_mathRound_le (x : ℚ) : |x - (mathRound x : ℚ)| ≤ 1 / 2 := by
  have h1 := Int.floor_le (x + 1 / 2)
  have h2 := Int.lt_floor_add_one (x + 1 / 2)
  unfold mathRound
  rw [abs_le]
  constructor <;> linarith

theorem ofRat_zero : JsNumber.ofRat 0 = JsNumber.finite 0 := by
  decide!

/-- An exact value of size at most `2 ^ 1023`, zero or in the normal range, gives
a finite double. -/
theorem ofRat_finite (x : ℚ) (hx : |x| ≤ Binary64.pow2 1023)
    (hn : x = 0 ∨ Binary64.pow2 (-1022) ≤ |x|) :
    JsNumber.ofRat x = JsNumber.finite (Binary64.round x) := by
  have hr : |Binary64.round x| < Binary64.pow2 1024 := by
    rcases hn with h0 | hn
    · subst h0
      rw [Binary64.round_zero, abs_zero]
      exact Binary64.pow2_pos _
    · have herr := Binary64.round_err x hn
      have hxn : 0 ≤ |x| := abs_nonneg x
      have h1 : |Binary64.round x| ≤ |x| + |x| / 2 ^ 53 := by
        have := abs_sub_abs_le_abs_sub (Binary64.round x) x
        linarith
      have h2 : Binary64.pow2 1024 = 2 * Binary64.pow2 1023 := by
        rw [show (1024 : ℤ) = 1 + 1023 by norm_num, Binary64.pow2_add]
        congr 1
      have h3 : |x| / 2 ^ 53 ≤ |x| / 2 := by
        apply div_le_div_of_nonneg_left hxn (by norm_num) (by norm_num)
      have hp := Binary64.pow2_pos 1023
      rcases eq_or_lt_of_le hxn with h0 | hpos
      · rw [← h0] at h1
        simp only [zero_div, add_zero] at h1
        linarith
      · have : |x| / 2 < |x| := by linarith
        linarith
  unfold JsNumber.ofRat
  simp only [not_le.mpr hr, if_false]

/-- The product `round(n / x) * x`, computed in binary64, is a finite double
within `3 * |n| / 2 ^ 53` of the integer `n`, for an integer below `2 ^ 50` in
size and an `x` from `2 ^ -900` to `2 ^ 900` (any `x` from `2 ^ -900` on when
`n = 0`). -/
theorem quotient_times_divisor (x : ℚ) (n : ℤ)
    (hlo : Binary64.pow2 (-900) ≤ x) (hhi : n = 0 ∨ x ≤ Binary64.pow2 900)
    (hb : |(n : ℚ)| < 2 ^ 50) :
    JsNumber.ofRat ((n : ℚ) / x) = JsNumber.finite (Binary64.round ((n : ℚ) / x)) ∧
    JsNumber.ofRat (Binary64.round ((n : ℚ) / x) * x)
      = JsNumber.finite (Binary64.round (Binary64.round ((n : ℚ) / x) * x)) ∧
    |Binary64.round (Binary64.round ((n : ℚ) / x) * x) - (n : ℚ)| ≤ 3 * |(n : ℚ)| / 2 ^ 53 := by
  have hxpos : 0 < x := lt_of_lt_of_le (Binary64.pow2_pos _) hlo
  have hx0 : x ≠ 0 := ne_of_gt hxpos
  by_cases hn : n = 0
  · subst hn
    simp only [Int.cast_zero, zero_div, Binary64.round_zero, zero_mul, sub_zero, abs_zero]
    refine ⟨?_, ?_, by norm_num⟩ <;>
    · have := ofRat_finite 0 (by rw [abs_zero]; exact le_of_lt (Binary64.pow2_pos _)) (Or.inl rfl)
      rw [Binary64.round_zero] at this
      exact this
  · have hhi : x ≤ Binary64.pow2 900 := hhi.resolve_left hn
    have hn1 : (1 : ℚ) ≤ |(n : ℚ)| := by
      have : (1 : ℤ) ≤ |n| := Int.one_le_abs hn
      exact_mod_cast this
    have e50 : Binary64.pow2 50 = 2 ^ 50 := Binary64.pow2_natCast 50
    have e51 : Binary64.pow2 51 = 2 ^ 51 := Binary64.pow2_natCast 51
    have hinv : 1 / x ≤ Binary64.pow2 900 := by
      rw [div_le_iff₀ hxpos]
      calc (1 : ℚ) = Binary64.pow2 900 * Binary64.pow2 (-900) := by
            rw [← Binary64.pow2_add]; rfl
        _ ≤ Binary64.pow2 900 * x :=
            mul_le_mul_of_nonneg_left hlo (le_of_lt (Binary64.pow2_pos _))
    have hinv2 : Binary64.pow2 (-900) ≤ 1 / x := by
      rw [le_div_iff₀ hxpos]
      calc Binary64.pow2 (-900) * x ≤ Binary64.pow2 (-900) * Binary64.pow2 900 :=
            mul_le_mul_of_nonneg_left hhi (le_of_lt (Binary64.pow2_pos _))
        _ = 1 := by rw [← Binary64.pow2_add]; rfl
    have hq : |(n : ℚ) / x| = |(n : ℚ)| * (1 / x) := by
      rw [abs_div, abs_of_pos hxpos]; ring
    have hqhi : |(n : ℚ) / x| ≤ Binary64.pow2 1023 := by
      rw [hq]
      calc |(n : ℚ)| * (1 / x) ≤ Binary64.pow2 50 * Binary64.pow2 900 := by
            apply mul_le_mul (by rw [e50]; exact le_of_lt hb) hinv (by positivity)
              (le_of_lt (Binary64.pow2_pos _))
        _ = Binary64.pow2 950 := by rw [← Binary64.pow2_add]; rfl
        _ ≤ Binary64.pow2 1023 := Binary64.pow2_le_pow2 (by norm_num)
    have hqlo : Binary64.pow2 (-1022) ≤ |(n : ℚ) / x| := by
      rw [hq]
      calc Binary64.pow2 (-1022) ≤ Binary64.pow2 (-900) := Binary64.pow2_le_pow2 (by norm_num)
        _ ≤ 1 / x := hinv2
        _ = 1 * (1 / x) := by ring
        _ ≤ |(n : ℚ)| * (1 / x) :=
            mul_le_mul_of_nonneg_right hn1 (by positivity)
    have hL := Binary64.round_err ((n : ℚ) / x) hqlo
    set L := Binary64.round ((n : ℚ) / x) with hLdef
    -- the product before rounding is close to n
    have hprod : |L * x - (n : ℚ)| ≤ |(n : ℚ)| / 2 ^ 53 := by
      have e : L * x - (n : ℚ) = (L - (n : ℚ) / x) * x := by field_simp
      rw [e, abs_mul, abs_of_pos hxpos]
      calc |L - (n : ℚ) / x| * x ≤ |(n : ℚ) / x| / 2 ^ 53 * x :=
            mul_le_mul_of_nonneg_right hL (le_of_lt hxpos)
        _ = |(n : ℚ)| / 2 ^ 53 := by rw [hq]; field_simp; ring
    have hnn : 0 ≤ |(n : ℚ)| := abs_nonneg _
    have hsmall : |(n : ℚ)| / 2 ^ 53 ≤ |(n : ℚ)| / 2 :=
      div_le_div_of_nonneg_left hnn (by norm_num) (by norm_num)
    have hplo : |(n : ℚ)| / 2 ≤ |L * x| := by
      have := abs_sub_abs_le_abs_sub ((n : ℚ)) (L * x)
      rw [abs_sub_comm] at this
      linarith
    have hphi : |L * x| ≤ 2 * |(n : ℚ)| := by
      have := abs_sub_abs_le_abs_sub (L * x) ((n : ℚ))
      linarith
    have hpn : Binary64.pow2 (-1022) ≤ |L * x| := by
      calc Binary64.pow2 (-1022) ≤ Binary64.pow2 (-1) := Binary64.pow2_le_pow2 (by norm_num)
        _ = 1 / 2 := by rfl
        _ ≤ |(n : ℚ)| / 2 := by linarith
        _ ≤ _ := hplo
    have hpb : |L * x| ≤ Binary64.pow2 1023 := by
      calc |L * x| ≤ 2 * |(n : ℚ)| := hphi
        _ ≤ 2 ^ 51 := by linarith
        _ = Binary64.pow2 51 := e51.symm
        _ ≤ Binary64.pow2 1023 := Binary64.pow2_le_pow2 (by norm_num)
    have hP := Binary64.round_err (L * x) hpn
    refine ⟨ofRat_finite _ hqhi (Or.inr hqlo), ofRat_finite _ hpb (Or.inr hpn), ?_⟩
    have htri : |Binary64.round (L * x) - (n : ℚ)|
        ≤ |Binary64.round (L * x) - L * x| + |L * x - (n : ℚ)| := by
      have := abs_add (Binary64.round (L * x) - L * x) (L * x - (n : ℚ))
      simpa using this
    have h3 : |L * x| / 2 ^ 53 ≤ 2 * |(n : ℚ)| / 2 ^ 53 :=
      div_le_div_of_nonneg_right hphi (by norm_num)
    have h4 : 2 * |(n : ℚ)| / 2 ^ 53 + |(n : ℚ)| / 2 ^ 53 = 3 * |(n : ℚ)| / 2 ^ 53 := by ring
    linarith

/-! ## `fontMetrics`: the x-height scale -/

/-- The fields `capScale`, `lowScale` and `lineHeight` for `xHeight = 0.5`,
`descent = -0.2`, `lineGap = 0.1` at 20 pixels, operation by operation. -/
theorem fontMetricsJs_example_values :
    jsRound (JsNumber.finite 20) = JsNumber.finite 20 ∧
    jsDiv (jsRound (jsMul (JsNumber.finite (1 / 2)) (JsNumber.finite 20)))
      (JsNumber.finite (1 / 2)) = JsNumber.finite 20 ∧
    jsMul (JsNumber.finite 20)
      (jsAdd
        (jsAdd (jsSub (JsNumber.finite 1) (JsNumber.finite (Binary64.round (-1 / 5))))
          (JsNumber.finite (Binary64.round (1 / 10))))
        (JsNumber.finite 0)) = JsNumber.finite 26 := by
  decide!

/-- The two embeddings of `fontMetrics` agree on `capScale` and `pixelSize`,
which no rounding of binary64 touches. -/
theorem fontMetricsJs_capScale (font : Font) (s moreLineGap : ℚ) :
    (fontMetricsJs font s moreLineGap).map (fun r => (r.capScale, r.pixelSize))
      = some (JsNumber.finite (fontMetrics font s moreLineGap).capScale,
          JsNumber.finite (fontMetrics font s moreLineGap).pixelSize) := rfl

/-- C11, refuted as stated: `lowScale * xHeight` need not be the integer
`round(xHeight * round(s))`. For `xHeight = 0.3` at `s = 22` the integer is 7,
`lowScale` is the double nearest to `7 / 0.3` and the product `lowScale * xHeight`
is the double `7 + 2 ^ -50` (printed `7.000000000000001`), which is not 7. For
`xHeight = 2 ^ -1024` at `s = 2 ^ 1023` the integer is 1 and both `lowScale` and
the product are `Infinity`. -/
theorem fontMetrics_xHeight_inexact :
    (0 : ℚ) < (fontOfNumbers (3 / 10) (-1 / 5) (1 / 10) 48).xHeight ∧
    jsRound (jsMul (JsNumber.finite (fontOfNumbers (3 / 10) (-1 / 5) (1 / 10) 48).xHeight)
      (jsRound (JsNumber.finite 22))) = JsNumber.finite 7 ∧
    (fontMetricsJs (fontOfNumbers (3 / 10) (-1 / 5) (1 / 10) 48) 22 0).map
      (fun r => jsMul r.lowScale
        (JsNumber.finite (fontOfNumbers (3 / 10) (-1 / 5) (1 / 10) 48).xHeight))
      = some (JsNumber.finite (7 + 1 / 2 ^ 50)) ∧
    JsNumber.finite (7 + 1 / 2 ^ 50) ≠ JsNumber.finite 7 ∧
    (0 : ℚ) < (fontOfNumbers (Binary64.pow2 (-1024)) (-1 / 5) (1 / 10) 48).xHeight ∧
    jsRound (jsMul
      (JsNumber.finite (fontOfNumbers (Binary64.pow2 (-1024)) (-1 / 5) (1 / 10) 48).xHeight)
      (jsRound (JsNumber.finite (Binary64.pow2 1023)))) = JsNumber.finite 1 ∧
    (fontMetricsJs (fontOfNumbers (Binary64.pow2 (-1024)) (-1 / 5) (1 / 10) 48)
        (Binary64.pow2 1023) 0).map
      (fun r => (r.lowScale, jsMul r.lowScale
        (JsNumber.finite (fontOfNumbers (Binary64.pow2 (-1024)) (-1 / 5) (1 / 10) 48).xHeight)))
      = some (JsNumber.posInf, JsNumber.posInf) := by
  decide!

/-- C11, amended: x-height snapping up to rounding. For every font with
`xHeight ≥ 2 ^ -900` and every finite pixel size `s` for which the integer
`n = round(xHeight * round(s))`, computed in binary64, is below `2 ^ 50` in
size, `fontMetrics` returns, `lowScale` is a finite double, and the product
`lowScale * xHeight`, computed in binary64, is a finite double within
`3 * |n| / 2 ^ 53` of `n`, which `Math.round` takes to `n`: the scaled x-height
is next to the whole pixel `n`, not always on it. And for `descent = -0.2`, `lineGap = 0.1`, `xHeight = 0.5` at
20 pixels (no extra line gap) `capScale = 20`, `lowScale = 20` and
`lineHeight = 26` exactly. -/
theorem fontMetrics_xHeight_rounds (font : Font) (s moreLineGap : ℚ)
    (hlo : Binary64.pow2 (-900) ≤ font.xHeight)
    (hb : |(mathRound (Binary64.round (font.xHeight * (mathRound s : ℚ))) : ℚ)| < 2 ^ 50) :
    (∃ r L P, fontMetricsJs font s moreLineGap = some r ∧
      jsRound (jsMul (JsNumber.finite font.xHeight) r.capScale)
        = JsNumber.finite (mathRound (Binary64.round (font.xHeight * (mathRound s : ℚ))) : ℚ) ∧
      r.lowScale = JsNumber.finite L ∧
      jsMul r.lowScale (JsNumber.finite font.xHeight) = JsNumber.finite P ∧
      jsRound (JsNumber.finite P)
        = jsRound (jsMul (JsNumber.finite font.xHeight) r.capScale) ∧
      |P - (mathRound (Binary64.round (font.xHeight * (mathRound s : ℚ))) : ℚ)|
        ≤ 3 * |(mathRound (Binary64.round (font.xHeight * (mathRound s : ℚ))) : ℚ)| / 2 ^ 53 ∧
      |P - (mathRound (Binary64.round (font.xHeight * (mathRound s : ℚ))) : ℚ)| < 1 / 2) ∧
    (∀ font2 : Font, font2.descent = Binary64.round (-1 / 5) →
      font2.lineGap = Binary64.round (1 / 10) → font2.xHeight = 1 / 2 →
      (fontMetricsJs font2 20 0).map (fun r => (r.capScale, r.lowScale, r.lineHeight))
        = some (JsNumber.finite 20, JsNumber.finite 20, JsNumber.finite 26)) := by
  constructor
  · have hxpos : 0 < font.xHeight := lt_of_lt_of_le (Binary64.pow2_pos _) hlo
    have hx0 : font.xHeight ≠ 0 := ne_of_gt hxpos
    set y := Binary64.round (font.xHeight * (mathRound s : ℚ)) with hy
    set n := mathRound y with hn
    have hhi : n = 0 ∨ font.xHeight ≤ Binary64.pow2 900 := by
      by_cases hle : font.xHeight ≤ Binary64.pow2 900
      · exact Or.inr hle
      · left
        have hgt : Binary64.pow2 900 < font.xHeight := not_le.mp hle
        by_cases hR : mathRound s = 0
        · rw [hn, hy, hR, Int.cast_zero, mul_zero, Binary64.round_zero]
          exact mathRound_zero
        · exfalso
          have hR1 : (1 : ℚ) ≤ |(mathRound s : ℚ)| := by
            have : (1 : ℤ) ≤ |mathRound s| := Int.one_le_abs hR
            exact_mod_cast this
          have hprod : Binary64.pow2 900 < |font.xHeight * (mathRound s : ℚ)| := by
            rw [abs_mul, abs_of_pos hxpos]
            calc Binary64.pow2 900 < font.xHeight := hgt
              _ = font.xHeight * 1 := (mul_one _).symm
              _ ≤ font.xHeight * |(mathRound s : ℚ)| :=
                  mul_le_mul_of_nonneg_left hR1 (le_of_lt hxpos)
          have hnorm : Binary64.pow2 (-1022) ≤ |font.xHeight * (mathRound s : ℚ)| :=
            le_trans (Binary64.pow2_le_pow2 (by norm_num)) (le_of_lt hprod)
          have herr := Binary64.round_err _ hnorm
          rw [← hy] at herr
          have h1 := abs_sub_abs_le_abs_sub (font.xHeight * (mathRound s : ℚ)) y
          rw [abs_sub_comm] at h1
          have h2 := abs_sub_mathRound_le y
          rw [← hn] at h2
          have h3 := abs_sub_abs_le_abs_sub y (n : ℚ)
          have h4 : |font.xHeight * (mathRound s : ℚ)| / 2 ^ 53
              ≤ |font.xHeight * (mathRound s : ℚ)| / 2 :=
            div_le_div_of_nonneg_left (abs_nonneg _) (by norm_num) (by norm_num)
          have e900 : Binary64.pow2 900 = 2 ^ 900 := Binary64.pow2_natCast 900
          have h5 : (2 : ℚ) ^ 50 + 1 / 2 ≤ 2 ^ 900 / 2 := by norm_num
          rw [e900] at hprod
          linarith
    obtain ⟨q1, q2, q4⟩ := quotient_times_divisor font.xHeight n hlo hhi hb
    have q3 : |Binary64.round (Binary64.round ((n : ℚ) / font.xHeight) * font.xHeight)
        - (n : ℚ)| < 1 / 2 := by
      have h5 : 3 * |(n : ℚ)| / 2 ^ 53 < 1 / 2 := by
        rw [div_lt_iff₀ (by norm_num)]
        have : (2 : ℚ) ^ 50 * 3 < 1 / 2 * 2 ^ 53 := by norm_num
        linarith
      linarith
    have hyfin : JsNumber.ofRat (font.xHeight * (mathRound s : ℚ)) = JsNumber.finite y := by
      have h1 := abs_sub_mathRound_le y
      have h2 : |y| ≤ |(n : ℚ)| + 1 / 2 := by
        have := abs_sub_abs_le_abs_sub y (n : ℚ)
        linarith
      have h3 : |y| < Binary64.pow2 1024 := by
        calc |y| ≤ |(n : ℚ)| + 1 / 2 := h2
          _ < 2 ^ 51 := by
              have : (2 : ℚ) ^ 50 + 1 / 2 < 2 ^ 51 := by norm_num
              linarith
          _ = Binary64.pow2 51 := (Binary64.pow2_natCast 51).symm
          _ ≤ Binary64.pow2 1024 := Binary64.pow2_le_pow2 (by norm_num)
      unfold JsNumber.ofRat
      simp only [← hy, not_le.mpr h3, if_false]
    have hnum : jsRound (jsMul (JsNumber.finite font.xHeight) (jsRound (JsNumber.finite s)))
        = JsNumber.finite (n : ℚ) := by
      simp only [jsRound, jsMul, hyfin]
    have hlow : jsDiv (JsNumber.finite (n : ℚ)) (JsNumber.finite font.xHeight)
        = JsNumber.finite (Binary64.round ((n : ℚ) / font.xHeight)) := by
      simp only [jsDiv, hx0, if_false, q1]
    refine ⟨_, Binary64.round ((n : ℚ) / font.xHeight),
      Binary64.round (Binary64.round ((n : ℚ) / font.xHeight) * font.xHeight), rfl, hnum,
      ?_, ?_, ?_, q4, q3⟩
    · show jsDiv (jsRound (jsMul (JsNumber.finite font.xHeight) (jsRound (JsNumber.finite s))))
        (JsNumber.finite font.xHeight) = _
      rw [hnum, hlow]
    · show jsMul (jsDiv (jsRound (jsMul (JsNumber.finite font.xHeight)
        (jsRound (JsNumber.finite s)))) (JsNumber.finite font.xHeight))
        (JsNumber.finite font.xHeight) = _
      rw [hnum, hlow]
      simp only [jsMul, q2]
    · show _ = jsRound (jsMul (JsNumber.finite font.xHeight) (jsRound (JsNumber.finite s)))
      rw [hnum]
      simp only [jsRound]
      rw [mathRound_eq_of_abs_lt _ n q3]
  · intro font2 hd hl hx
    obtain ⟨v1, v2, v3⟩ := fontMetricsJs_example_values
    simp only [fontMetricsJs, hd, hl, hx, Option.map_some', v1, v2, v3]

/-- Witness of C11: `xHeight = 0.3` at 22 pixels, where the product is not the
integer. -/
theorem fontMetrics_xHeight_rounds_witness :
    (∃ r L P, fontMetricsJs (fontOfNumbers (3 / 10) (-1 / 5) (1 / 10) 48) 22 0 = some r ∧
      jsRound (jsMul (JsNumber.finite (fontOfNumbers (3 / 10) (-1 / 5) (1 / 10) 48).xHeight)
          r.capScale)
        = JsNumber.finite (mathRound (Binary64.round
            ((fontOfNumbers (3 / 10) (-1 / 5) (1 / 10) 48).xHeight * (mathRound 22 : ℚ))) : ℚ) ∧
      r.lowScale = JsNumber.finite L ∧
      jsMul r.lowScale (JsNumber.finite (fontOfNumbers (3 / 10) (-1 / 5) (1 / 10) 48).xHeight)
        = JsNumber.finite P ∧
      jsRound (JsNumber.finite P)
        = jsRound (jsMul
            (JsNumber.finite (fontOfNumbers (3 / 10) (-1 / 5) (1 / 10) 48).xHeight)
            r.capScale) ∧
      |P - (mathRound (Binary64.round
            ((fontOfNumbers (3 / 10) (-1 / 5) (1 / 10) 48).xHeight * (mathRound 22 : ℚ))) : ℚ)|
        ≤ 3 * |(mathRound (Binary64.round
            ((fontOfNumbers (3 / 10) (-1 / 5) (1 / 10) 48).xHeight * (mathRound 22 : ℚ))) : ℚ)|
          / 2 ^ 53 ∧
      |P - (mathRound (Binary64.round
            ((fontOfNumbers (3 / 10) (-1 / 5) (1 / 10) 48).xHeight * (mathRound 22 : ℚ))) : ℚ)|
        < 1 / 2) ∧
    (∀ font2 : Font, font2.descent = Binary64.round (-1 / 5) →
      font2.lineGap = Binary64.round (1 / 10) → font2.xHeight = 1 / 2 →
      (fontMetricsJs font2 20 0).map (fun r => (r.capScale, r.lowScale, r.lineHeight))
        = some (JsNumber.finite 20, JsNumber.finite 20, JsNumber.finite 26)) :=
  fontMetrics_xHeight_rounds (fontOfNumbers (3 / 10) (-1 / 5) (1 / 10) 48) 22 0
    (by decide!) (by decide!)

/-! ## `charRect`: the glyph box and its vertex stream -/

theorem land_one_eq (n : Nat) : ((n &&& 1) == 1) = decide (n % 2 = 1) := by
  rw [Nat.and_one_is_mod]
  by_cases h : n % 2 = 1 <;> simp [h]

/-- C13: the glyph box of `charRect`. With `baseline = round(pen.y - pixelSize)`,
`falloff = font.falloff * scaleTexturePxToMetrics` and `scaleY` the `lowScale`
when bit 0 of the flags is set and the `capScale` otherwise, the box is
`top = baseline + scaleY * (bearingY + falloff)`,
`left = pen.x + pixelSize * (bearingX - falloff + kern)`,
`bottom = top - scaleY * scaleTexturePxToMetrics * (gBottom - gTop)`,
`right = left + pixelSize * scaleTexturePxToMetrics * (gRight - gLeft)`, the
returned pen is `(pen.x + pixelSize * (advanceX + kern), pen.y)`, and `left`,
`right` and the pen do not change with `capScale`, `lowScale` or the flags. -/
theorem charRect_box (pos : ℚ × ℚ) (font : Font) (fm : FontMetrics) (m : CharMetrics)
    (kern : ℚ) :
    let baseline : ℚ := (mathRound (pos.2 - fm.pixelSize) : ℚ)
    let falloff : ℚ := font.falloff * fm.scaleTexturePxToMetrics
    let scaleY : ℚ := if m.FLAGS % 2 = 1 then fm.lowScale else fm.capScale
    let top : ℚ := baseline + scaleY * (m.BEARING_Y + falloff)
    let left : ℚ := pos.1 + fm.pixelSize * (m.BEARING_X - falloff + kern)
    let bottom : ℚ := top - scaleY * fm.scaleTexturePxToMetrics * (m.BOTTOM - m.TOP)
    let right : ℚ := left + fm.pixelSize * fm.scaleTexturePxToMetrics * (m.RIGHT - m.LEFT)
    let cr := charRect pos font fm m kern
    (vertexPos cr.vertices 0 = (left, top) ∧ vertexPos cr.vertices 1 = (right, top) ∧
      vertexPos cr.vertices 2 = (left, bottom) ∧ vertexPos cr.vertices 3 = (left, bottom) ∧
      vertexPos cr.vertices 4 = (right, top) ∧ vertexPos cr.vertices 5 = (right, bottom)) ∧
    cr.pos = (pos.1 + fm.pixelSize * (m.ADVANCE_X + kern), pos.2) ∧
    (∀ (capScale lowScale : ℚ) (flags : Nat),
      let fm2 := FontMetrics.mk capScale lowScale fm.pixelSize fm.lineHeight
        fm.scaleTexturePxToMetrics
      let m2 := CharMetrics.mk m.LEFT m.TOP m.RIGHT m.BOTTOM m.BEARING_X m.BEARING_Y
        m.ADVANCE_X flags
      let cr2 := charRect pos font fm2 m2 kern
      (vertexPos cr2.vertices 0).1 = left ∧ (vertexPos cr2.vertices 1).1 = right ∧
        cr2.pos = cr.pos) := by
  intro baseline falloff scaleY top left bottom right cr
  have hs : (if ((m.FLAGS &&& 1) == 1) = true then fm.lowScale else fm.capScale) = scaleY := by
    rw [land_one_eq]
    simp only [decide_eq_true_eq, scaleY]
  have hv : cr.vertices
      = [left, top, m.LEFT / font.textureWidth, m.TOP / font.textureHeight,
          2 * falloff * fm.pixelSize,
         right, top, m.RIGHT / font.textureWidth, m.TOP / font.textureHeight,
          2 * falloff * fm.pixelSize,
         left, bottom, m.LEFT / font.textureWidth, m.BOTTOM / font.textureHeight,
          2 * falloff * fm.pixelSize,
         left, bottom, m.LEFT / font.textureWidth, m.BOTTOM / font.textureHeight,
          2 * falloff * fm.pixelSize,
         right, top, m.RIGHT / font.textureWidth, m.TOP / font.textureHeight,
          2 * falloff * fm.pixelSize,
         right, bottom, m.RIGHT / font.textureWidth, m.BOTTOM / font.textureHeight,
          2 * falloff * fm.pixelSize] := by
    simp only [cr, charRect, hs]
  refine ⟨?_, rfl, ?_⟩
  · rw [hv]
    exact ⟨rfl, rfl, rfl, rfl, rfl, rfl⟩
  · intro capScale lowScale flags
    exact ⟨rfl, rfl, rfl⟩

/-- C20: the vertex stream of one glyph. `charRect` returns exactly 30 scalars,
six vertices of five scalars `(x, y, u, v, sdfSize)` in the order (left, top),
(right, top), (left, bottom), (left, bottom), (right, top), (right, bottom),
where left, top, right and bottom are the edges of the glyph box the function
computes; the vertices on the left edge carry `u = gLeft / textureWidth`, those
on the right edge `gRight / textureWidth`, those on the top edge
`v = gTop / textureHeight`, those on the bottom edge `gBottom / textureHeight`,
and all six carry `sdfSize = 2 * font.falloff * scaleTexturePxToMetrics * pixelSize`. -/
theorem charRect_vertex_stream (pos : ℚ × ℚ) (font : Font) (fm : FontMetrics)
    (m : CharMetrics) (kern : ℚ) :
    let baseline : ℚ := (mathRound (pos.2 - fm.pixelSize) : ℚ)
    let falloff : ℚ := font.falloff * fm.scaleTexturePxToMetrics
    let scaleY : ℚ := if m.FLAGS % 2 = 1 then fm.lowScale else fm.capScale
    let top : ℚ := baseline + scaleY * (m.BEARING_Y + falloff)
    let left : ℚ := pos.1 + fm.pixelSize * (m.BEARING_X - falloff + kern)
    let bottom : ℚ := top - scaleY * fm.scaleTexturePxToMetrics * (m.BOTTOM - m.TOP)
    let right : ℚ := left + fm.pixelSize * fm.scaleTexturePxToMetrics * (m.RIGHT - m.LEFT)
    let sdfSize : ℚ := 2 * font.falloff * fm.scaleTexturePxToMetrics * fm.pixelSize
    let uLeft := m.LEFT / font.textureWidth
    let uRight := m.RIGHT / font.textureWidth
    let vTop := m.TOP / font.textureHeight
    let vBottom := m.BOTTOM / font.textureHeight
    let cr := charRect pos font fm m kern
    cr.vertices.length = 30 ∧
    vertexAt cr.vertices 0 = [left, top, uLeft, vTop, sdfSize] ∧
    vertexAt cr.vertices 1 = [right, top, uRight, vTop, sdfSize] ∧
    vertexAt cr.vertices 2 = [left, bottom, uLeft, vBottom, sdfSize] ∧
    vertexAt cr.vertices 3 = [left, bottom, uLeft, vBottom, sdfSize] ∧
    vertexAt cr.vertices 4 = [right, top, uRight, vTop, sdfSize] ∧
    vertexAt cr.vertices 5 = [right, bottom, uRight, vBottom, sdfSize] ∧
    cr.vertices
      = vertexAt cr.vertices 0 ++ vertexAt cr.vertices 1 ++ vertexAt cr.vertices 2
        ++ vertexAt cr.vertices 3 ++ vertexAt cr.vertices 4 ++ vertexAt cr.vertices 5 := by
  intro baseline falloff scaleY top left bottom right sdfSize uLeft uRight vTop vBottom cr
  have hs : (if ((m.FLAGS &&& 1) == 1) = true then fm.lowScale else fm.capScale) = scaleY := by
    rw [land_one_eq]
    simp only [decide_eq_true_eq, scaleY]
  have hsdf : 2 * (font.falloff * fm.scaleTexturePxToMetrics) * fm.pixelSize = sdfSize := by
    simp only [sdfSize]
    ring
  have hv : cr.vertices
      = [left, top, uLeft, vTop, sdfSize, right, top, uRight, vTop, sdfSize,
         left, bottom, uLeft, vBottom, sdfSize, left, bottom, uLeft, vBottom, sdfSize,
         right, top, uRight, vTop, sdfSize, right, bottom, uRight, vBottom, sdfSize] := by
    simp only [cr, charRect, hs, hsdf]
  rw [hv]
  exact ⟨rfl, rfl, rfl, rfl, rfl, rfl, rfl, rfl⟩

/-- The two triangles of the quad on a non-degenerate box: their signed areas
and the points they cover. -/
theorem box_triangles (l t r b : ℚ) (hlr : l < r) (hbt : b < t) :
    signedArea2 (l, t) (r, t) (l, b) = -((r - l) * (t - b)) ∧
    signedArea2 (l, b) (r, t) (r, b) = -((r - l) * (t - b)) ∧
    -((r - l) * (t - b)) < 0 ∧
    ∀ p : ℚ × ℚ, (inTriangle (l, t) (r, t) (l, b) p ∨ inTriangle (l, b) (r, t) (r, b) p)
      ↔ (l ≤ p.1 ∧ p.1 ≤ r ∧ b ≤ p.2 ∧ p.2 ≤ t) := by
  have hD : 0 < r - l := by linarith
  have hH : 0 < t - b := by linarith
  refine ⟨by simp only [signedArea2]; ring, by simp only [signedArea2]; ring, ?_, ?_⟩
  · have := mul_pos hD hH
    linarith
  · intro p
    obtain ⟨x, y⟩ := p
    simp only [inTriangle, signedArea2]
    constructor
    · rintro ((⟨h1, h2, h3⟩ | ⟨h1, h2, h3⟩) | (⟨h1, h2, h3⟩ | ⟨h1, h2, h3⟩))
      · have hy : t ≤ y := by nlinarith
        have hx : x ≤ l := by nlinarith
        refine ⟨by nlinarith, by nlinarith, by nlinarith, by nlinarith⟩
      · have hy : y ≤ t := by nlinarith
        have hx : l ≤ x := by nlinarith
        refine ⟨hx, by nlinarith, by nlinarith, hy⟩
      · have hy : y ≤ b := by nlinarith
        have hx : r ≤ x := by nlinarith
        refine ⟨by nlinarith, by nlinarith, by nlinarith, by nlinarith⟩
      · have hy : b ≤ y := by nlinarith
        have hx : x ≤ r := by nlinarith
        refine ⟨by nlinarith, hx, hy, by nlinarith⟩
    · rintro ⟨h1, h2, h3, h4⟩
      by_cases hd : (x - r) * (t - b) ≤ (r - l) * (y - t)
      · left
        right
        refine ⟨by nlinarith, by nlinarith, by nlinarith⟩
      · right
        right
        refine ⟨by nlinarith, by nlinarith, by nlinarith⟩

/-- C12 as stated fails: for the glyph `A` of `demoFont` the box is
non-degenerate (`-2 < 18`, `-22 < 2`), yet neither triangle has a positive
signed area: both run clockwise. -/
theorem charRect_triangles_clockwise :
    (vertexPos demoRectA.vertices 0 = (-2, 2) ∧ vertexPos demoRectA.vertices 1 = (18, 2) ∧
      vertexPos demoRectA.vertices 2 = (-2, -22) ∧ vertexPos demoRectA.vertices 5 = (18, -22)) ∧
    ¬ (0 < signedArea2 (vertexPos demoRectA.vertices 0) (vertexPos demoRectA.vertices 1)
        (vertexPos demoRectA.vertices 2)) ∧
    ¬ (0 < signedArea2 (vertexPos demoRectA.vertices 3) (vertexPos demoRectA.vertices 4)
        (vertexPos demoRectA.vertices 5)) := by
  decide!

/-- C12, amended: whenever the glyph box is non-degenerate (`right > left`,
`top > bottom`, Y increasing upward), both triangles emitted by `charRect`
(vertices 0-2 and 3-5) run clockwise: each has the signed area
`-(right - left) * (top - bottom) / 2 < 0`; and together they cover exactly the
box `[left, right] x [bottom, top]`. -/
theorem charRect_winding (pos : ℚ × ℚ) (font : Font) (fm : FontMetrics) (m : CharMetrics)
    (kern : ℚ)
    (hlr : (vertexPos (charRect pos font fm m kern).vertices 0).1
      < (vertexPos (charRect pos font fm m kern).vertices 1).1)
    (hbt : (vertexPos (charRect pos font fm m kern).vertices 2).2
      < (vertexPos (charRect pos font fm m kern).vertices 0).2) :
    let v := vertexPos (charRect pos font fm m kern).vertices
    let left := (v 0).1
    let top := (v 0).2
    let right := (v 1).1
    let bottom := (v 2).2
    signedArea2 (v 0) (v 1) (v 2) = -((right - left) * (top - bottom)) ∧
    signedArea2 (v 3) (v 4) (v 5) = -((right - left) * (top - bottom)) ∧
    signedArea2 (v 0) (v 1) (v 2) < 0 ∧ signedArea2 (v 3) (v 4) (v 5) < 0 ∧
    ∀ p : ℚ × ℚ, (inTriangle (v 0) (v 1) (v 2) p ∨ inTriangle (v 3) (v 4) (v 5) p)
      ↔ (left ≤ p.1 ∧ p.1 ≤ right ∧ bottom ≤ p.2 ∧ p.2 ≤ top) := by
  intro v left top right bottom
  have h0 : v 0 = (left, top) := rfl
  have h1 : v 1 = (right, top) := rfl
  have h2 : v 2 = (left, bottom) := rfl
  have h3 : v 3 = (left, bottom) := rfl
  have h4 : v 4 = (right, top) := rfl
  have h5 : v 5 = (right, bottom) := rfl
  obtain ⟨a1, a2, a3, a4⟩ := box_triangles left top right bottom hlr hbt
  rw [h0, h1, h2, h3, h4, h5]
  exact ⟨a1, a2, by rw [a1]; exact a3, by rw [a2]; exact a3, a4⟩

/-- Witness of the amended C12: the glyph `A` of `demoFont`. -/
theorem charRect_winding_witness :
    let v := vertexPos (charRect (0, 0) demoFont demoMetrics
      (CharMetrics.mk 0 0 40 48 0 1 (3 / 5) 0) 0).vertices
    let left := (v 0).1
    let top := (v 0).2
    let right := (v 1).1
    let bottom := (v 2).2
    signedArea2 (v 0) (v 1) (v 2) = -((right - left) * (top - bottom)) ∧
    signedArea2 (v 3) (v 4) (v 5) = -((right - left) * (top - bottom)) ∧
    signedArea2 (v 0) (v 1) (v 2) < 0 ∧ signedArea2 (v 3) (v 4) (v 5) < 0 ∧
    ∀ p : ℚ × ℚ, (inTriangle (v 0) (v 1) (v 2) p ∨ inTriangle (v 3) (v 4) (v 5) p)
      ↔ (left ≤ p.1 ∧ p.1 ≤ right ∧ bottom ≤ p.2 ∧ p.2 ≤ top) :=
  charRect_winding (0, 0) demoFont demoMetrics (CharMetrics.mk 0 0 40 48 0 1 (3 / 5) 0) 0
    (by decide!) (by decide!)

/-! ## `writeString`: the frame of the vertex buffer -/

theorem loopBody_frame_ge {string : List Nat} {font : Font} {fm : FontMetrics} {st st1 : WState}
    (h : loopBody string font fm st = some st1) (i : Nat) (hi : st1.arrayPos ≤ i) :
    st1.vertexArray[i]? = st.vertexArray[i]? := by
  unfold loopBody at h
  simp only at h
  split_ifs at h with h1 h2
  · cases h; unfold newlineState; cases st.cpos <;> simp
  · cases h; unfold spaceState; cases st.cpos <;> simp
  · cases hg : glyphOf font string[st.strPos]? with
    | none => simp [hg] at h
    | some cm =>
      obtain ⟨code, m⟩ := cm
      simp only [hg, Option.some.injEq] at h
      subst h
      simp only [glyphState] at hi ⊢
      exact copyVertices_getElem_of_ge _ _ _ _ hi

theorem loopBody_arrayPos_le {string : List Nat} {font : Font} {fm : FontMetrics}
    {st st1 : WState} (h : loopBody string font fm st = some st1) :
    st.arrayPos ≤ st1.arrayPos := by
  rw [(loopBody_indices h).2.2]; omega

theorem stateAfter_step (string : List Nat) (font : Font) (fm : FontMetrics) (n : Nat)
    (st : WState) :
    stateAfter string font fm (n + 1) st =
      if st.strPos = string.length then none
      else if st.arrayPos + glyphFloatCount ≥ st.vertexArray.length then none
      else (loopBody string font fm st).bind (stateAfter string font fm n) := rfl

theorem stateAfter_add (string : List Nat) (font : Font) (fm : FontMetrics)
    (a b : Nat) (st0 : WState) :
    stateAfter string font fm (a + b) st0
      = (stateAfter string font fm a st0).bind (stateAfter string font fm b) := by
  induction a generalizing st0 with
  | zero => simp [stateAfter]
  | succ a ih =>
    rw [Nat.add_right_comm, stateAfter_step, stateAfter_step]
    split_ifs
    · rfl
    · rfl
    · cases hb : loopBody string font fm st0 with
      | none => rfl
      | some st1 => simp only [Option.some_bind]; exact ih st1

theorem stateAfter_one {string : List Nat} {font : Font} {fm : FontMetrics} {st st1 : WState}
    (h : stateAfter string font fm 1 st = some st1) :
    loopBody string font fm st = some st1 ∧ st.strPos ≠ string.length ∧
      st.arrayPos + glyphFloatCount < st.vertexArray.length := by
  unfold stateAfter at h
  split_ifs at h with h1 h2
  cases hb : loopBody string font fm st with
  | none => simp [hb] at h
  | some st2 =>
    simp only [hb, Option.some_bind, stateAfter, Option.some.injEq] at h
    subst h
    exact ⟨rfl, h1, by omega⟩

theorem stateAfter_arrayPos_le {string : List Nat} {font : Font} {fm : FontMetrics}
    (n : Nat) (st st1 : WState) (h : stateAfter string font fm n st = some st1) :
    st.arrayPos ≤ st1.arrayPos := by
  induction n generalizing st with
  | zero =>
    simp only [stateAfter, Option.some.injEq] at h
    subst h; exact le_refl _
  | succ n ih =>
    unfold stateAfter at h
    split_ifs at h with h1 h2
    cases hb : loopBody string font fm st with
    | none => simp [hb] at h
    | some st2 =>
      simp only [hb, Option.some_bind] at h
      exact le_trans (loopBody_arrayPos_le hb) (ih st2 h)

/-- A state the loop reaches lies before the state the loop ends in. -/
theorem stateAfter_le_final {string : List Nat} {font : Font} {fm : FontMetrics}
    (fuel n : Nat) (st0 st fin : WState) (hpos : st0.strPos ≤ string.length)
    (hfin : writeLoop string font fm fuel st0 = some fin)
    (h : stateAfter string font fm n st0 = some st) :
    ∃ j, stateAfter string font fm j st = some fin := by
  obtain ⟨N, hN, -⟩ := stateAfter_of_writeLoop fuel st0 fin hfin
  have hstop : stateAfter string font fm 1 fin = none := by
    obtain ⟨-, -, i3, -, -, i6⟩ := writeLoop_indices fuel st0 fin hfin hpos
    unfold stateAfter
    rcases i6 with h6 | h6
    · simp [h6]
    · have : fin.arrayPos + glyphFloatCount ≥ fin.vertexArray.length := by
        simp only [glyphFloatCount]; omega
      simp [this]
  by_cases hle : n ≤ N
  · obtain ⟨j, rfl⟩ := Nat.exists_eq_add_of_le hle
    rw [stateAfter_add, h, Option.some_bind] at hN
    exact ⟨j, hN⟩
  · exfalso
    obtain ⟨k, hk⟩ := Nat.exists_eq_add_of_lt (Nat.lt_of_not_le hle)
    have : n = N + (1 + k) := by omega
    rw [this, stateAfter_add, hN, Option.some_bind, stateAfter_add, hstop] at h
    simp at h

theorem writeLoop_frame_ge {string : List Nat} {font : Font} {fm : FontMetrics}
    (fuel : Nat) (st st2 : WState) (h : writeLoop string font fm fuel st = some st2) :
    st.arrayPos ≤ st2.arrayPos ∧
      ∀ i, st2.arrayPos ≤ i → st2.vertexArray[i]? = st.vertexArray[i]? := by
  induction fuel generalizing st with
  | zero => simp [writeLoop] at h
  | succ fuel ih =>
    rw [writeLoop_succ] at h
    split_ifs at h with h1 h2
    · cases h; exact ⟨le_refl _, fun _ _ => rfl⟩
    · cases h; exact ⟨le_refl _, fun _ _ => rfl⟩
    · cases hb : loopBody string font fm st with
      | none => simp [hb] at h
      | some st1 =>
        simp only [hb] at h
        obtain ⟨hle, hfr⟩ := ih st1 h
        have hle1 := loopBody_arrayPos_le hb
        refine ⟨le_trans hle1 hle, fun i hi => ?_⟩
        rw [hfr i hi, loopBody_frame_ge hb i (le_trans hle hi)]

/-- The indices, the array length and the frame of the array at a state the
loop reaches from `st0` in `n` iterations. -/
theorem stateAfter_indices {string : List Nat} {font : Font} {fm : FontMetrics}
    (n : Nat) (st0 st : WState) (h : stateAfter string font fm n st0 = some st)
    (hpos : st0.strPos ≤ string.length) :
    st0.strPos ≤ st.strPos ∧ st.strPos ≤ string.length ∧
      st.vertexArray.length = st0.vertexArray.length ∧
      st.arrayPos
        = st0.arrayPos + 30 * glyphCount ((string.drop st0.strPos).take (st.strPos - st0.strPos)) ∧
      (st.arrayPos = st0.arrayPos ∨ st.arrayPos < st0.vertexArray.length) ∧
      ∀ i, i < st0.arrayPos ∨ st.arrayPos ≤ i → st.vertexArray[i]? = st0.vertexArray[i]? := by
  induction n generalizing st0 with
  | zero =>
    simp only [stateAfter, Option.some.injEq] at h
    subst h
    simp [glyphCount, hpos]
  | succ n ih =>
    rw [stateAfter_step] at h
    split_ifs at h with h1 h2
    cases hbody : loopBody string font fm st0 with
    | none => simp [hbody] at h
    | some st1 =>
      simp only [hbody, Option.some_bind] at h
      obtain ⟨hs, hl, ha⟩ := loopBody_indices hbody
      have hlt : st0.strPos < string.length := by omega
      obtain ⟨i1, i2, i3, i4, i5, i6⟩ := ih st1 h (by omega)
      simp only [glyphFloatCount] at h2
      have hseg : (string.drop st0.strPos).take (st.strPos - st0.strPos)
          = string[st0.strPos] :: (string.drop st1.strPos).take (st.strPos - st1.strPos) := by
        rw [List.drop_eq_getElem_cons hlt, hs]
        have : st.strPos - st0.strPos = (st.strPos - (st0.strPos + 1)) + 1 := by omega
        rw [this, List.take_succ_cons]
      have hget : string[st0.strPos]? = some string[st0.strPos] := List.getElem?_eq_getElem hlt
      have hle1 : st0.arrayPos ≤ st1.arrayPos := by rw [ha]; omega
      have hle2 : st1.arrayPos ≤ st.arrayPos := by rw [i4]; omega
      refine ⟨by omega, i2, by omega, ?_, ?_, ?_⟩
      · rw [hseg, i4, ha, hget]
        simp only [glyphCount, List.countP_cons]
        split_ifs <;> omega
      · right
        rcases i5 with h5 | h5
        · rw [h5, ha]; split_ifs <;> omega
        · omega
      · rintro i (hi | hi)
        · rw [i6 i (Or.inl (by omega)), loopBody_frame hbody i hi]
        · rw [i6 i (Or.inr hi), loopBody_frame_ge hbody i (by omega)]

/-- An iteration throws only when the font has no question mark. -/
theorem loopBody_eq_none {string : List Nat} {font : Font} {fm : FontMetrics} {st : WState}
    (h : loopBody string font fm st = none) : font.chars CHAR_CODES.QUESTION_MARK = none := by
  cases hq : font.chars CHAR_CODES.QUESTION_MARK with
  | none => rfl
  | some m =>
    have := loopBody_isSome string font fm st (by rw [hq]; rfl)
    rw [h] at this
    simp at this

/-- C15: no partial glyph, and the frame of the vertex buffer. For every call
with `strPos ≤ string.length` and `arrayPos ≤ vertexArray.length`, whatever the
font: at every state the loop reaches, `arrayPos` of the state is the `arrayPos`
of the call plus 30 times the number of characters other than space and newline
consumed so far, it stays within the array, the array keeps its length and
every element outside `[call arrayPos, state arrayPos)` has the value it had
before the call; an iteration moves `arrayPos` by 0 or by 30 and changes the
array only inside `[st.arrayPos, st1.arrayPos)`, below `vertexArray.length`.
A call that returns gives `array_pos - arrayPos` as 30 times the number of
characters other than space and newline among `string[strPos .. string_pos)`,
`array_pos` within the array, every iteration below `array_pos`, and every
element outside `[arrayPos, array_pos)` unchanged. A call that does not return
throws in an iteration (the font lacks the question mark), after iterations
that kept all of the above; with the question mark in the font every call
returns. -/
theorem writeString_no_partial_glyph (string : List Nat) (font : Font) (fm : FontMetrics)
    (pos : ℚ × ℚ) (vertexArray : List ℚ) (strPos arrayPos : Nat)
    (hs : strPos ≤ string.length) (ha : arrayPos ≤ vertexArray.length) :
    (∀ n st,
      stateAfter string font fm n (initState pos vertexArray strPos arrayPos) = some st →
      strPos ≤ st.strPos ∧ st.strPos ≤ string.length ∧
      st.arrayPos
        = arrayPos + 30 * glyphCount ((string.drop strPos).take (st.strPos - strPos)) ∧
      st.arrayPos ≤ vertexArray.length ∧ st.vertexArray.length = vertexArray.length ∧
      (∀ i, i < arrayPos ∨ st.arrayPos ≤ i → st.vertexArray[i]? = vertexArray[i]?) ∧
      (∀ st1, stateAfter string font fm 1 st = some st1 →
        arrayPos ≤ st.arrayPos ∧ st1.arrayPos ≤ vertexArray.length ∧
          (st1.arrayPos = st.arrayPos ∨ st1.arrayPos = st.arrayPos + 30) ∧
          ∀ i, i < st.arrayPos ∨ st1.arrayPos ≤ i →
            st1.vertexArray[i]? = st.vertexArray[i]?)) ∧
    (∀ r, writeString string font fm pos vertexArray strPos arrayPos = some r →
      strPos ≤ r.string_pos ∧ r.string_pos ≤ string.length ∧
      r.array_pos
        = arrayPos + 30 * glyphCount ((string.drop strPos).take (r.string_pos - strPos)) ∧
      r.array_pos ≤ vertexArray.length ∧ r.vertexArray.length = vertexArray.length ∧
      (∀ i, i < arrayPos ∨ r.array_pos ≤ i → r.vertexArray[i]? = vertexArray[i]?) ∧
      (∀ n st,
        stateAfter string font fm n (initState pos vertexArray strPos arrayPos) = some st →
        st.arrayPos ≤ r.array_pos)) ∧
    (writeString string font fm pos vertexArray strPos arrayPos = none →
      font.chars CHAR_CODES.QUESTION_MARK = none ∧
      ∃ n st, stateAfter string font fm n (initState pos vertexArray strPos arrayPos) = some st ∧
        loopBody string font fm st = none) ∧
    ((font.chars CHAR_CODES.QUESTION_MARK).isSome →
      ∃ r, writeString string font fm pos vertexArray strPos arrayPos = some r) := by
  have hinv : ∀ n st,
      stateAfter string font fm n (initState pos vertexArray strPos arrayPos) = some st →
      strPos ≤ st.strPos ∧ st.strPos ≤ string.length ∧
      st.arrayPos
        = arrayPos + 30 * glyphCount ((string.drop strPos).take (st.strPos - strPos)) ∧
      st.arrayPos ≤ vertexArray.length ∧ st.vertexArray.length = vertexArray.length ∧
      (∀ i, i < arrayPos ∨ st.arrayPos ≤ i → st.vertexArray[i]? = vertexArray[i]?) := by
    intro n st hn
    obtain ⟨i1, i2, i3, i4, i5, i6⟩ := stateAfter_indices n _ st hn hs
    simp only [initState] at i1 i2 i3 i4 i5 i6
    exact ⟨i1, i2, i4, by omega, i3, i6⟩
  refine ⟨?_, ?_, ?_, ?_⟩
  · intro n st hn
    obtain ⟨j1, j2, j3, j4, j5, j6⟩ := hinv n st hn
    refine ⟨j1, j2, j3, j4, j5, j6, ?_⟩
    intro st1 h1
    have hn1 : stateAfter string font fm (n + 1) (initState pos vertexArray strPos arrayPos)
        = some st1 := by
      rw [stateAfter_add, hn, Option.some_bind, h1]
    obtain ⟨-, -, -, k4, -, -⟩ := hinv (n + 1) st1 hn1
    obtain ⟨hbody, -, -⟩ := stateAfter_one h1
    have hstep := (loopBody_indices hbody).2.2
    refine ⟨by omega, k4, ?_, ?_⟩
    · rw [hstep]; split_ifs
      · right; rfl
      · left; rfl
    · rintro i (hi | hi)
      · exact loopBody_frame hbody i hi
      · exact loopBody_frame_ge hbody i hi
  · intro r hr
    rw [writeString_eq] at hr
    cases hfin : writeLoop string font fm (loopBound string vertexArray strPos)
        (initState pos vertexArray strPos arrayPos) with
    | none => simp [hfin] at hr
    | some fin =>
      simp only [hfin, Option.map_some', Option.some.injEq] at hr
      subst hr
      obtain ⟨N, hN, -⟩ := stateAfter_of_writeLoop _ _ fin hfin
      obtain ⟨j1, j2, j3, j4, j5, j6⟩ := hinv N fin hN
      refine ⟨j1, j2, j3, j4, j5, j6, ?_⟩
      intro n st hn
      obtain ⟨j, hj⟩ := stateAfter_le_final _ n _ st fin hs hfin hn
      exact stateAfter_arrayPos_le j st fin hj
  · intro hnone
    obtain ⟨n, st, hn, hb⟩ := writeString_eq_none hnone
    exact ⟨loopBody_eq_none hb, n, st, hn, hb⟩
  · intro hq
    obtain ⟨fin, -, hr⟩ := writeString_isSome string font fm pos vertexArray strPos arrayPos hq
    exact ⟨_, hr⟩

/-- Witness of C15: `"A B"` resumed at index 1 and array position 30. -/
theorem writeString_no_partial_glyph_witness :
    (∀ n st,
      stateAfter [65, 32, 66] demoFont demoMetrics n
        (initState (0, 0) (emptyArray 120) 1 30) = some st →
      1 ≤ st.strPos ∧ st.strPos ≤ [65, 32, 66].length ∧
      st.arrayPos
        = 30 + 30 * glyphCount (([65, 32, 66].drop 1).take (st.strPos - 1)) ∧
      st.arrayPos ≤ (emptyArray 120).length ∧
      st.vertexArray.length = (emptyArray 120).length ∧
      (∀ i, i < 30 ∨ st.arrayPos ≤ i → st.vertexArray[i]? = (emptyArray 120)[i]?) ∧
      (∀ st1, stateAfter [65, 32, 66] demoFont demoMetrics 1 st = some st1 →
        30 ≤ st.arrayPos ∧ st1.arrayPos ≤ (emptyArray 120).length ∧
          (st1.arrayPos = st.arrayPos ∨ st1.arrayPos = st.arrayPos + 30) ∧
          ∀ i, i < st.arrayPos ∨ st1.arrayPos ≤ i →
            st1.vertexArray[i]? = st.vertexArray[i]?)) ∧
    (∀ r, writeString [65, 32, 66] demoFont demoMetrics (0, 0) (emptyArray 120) 1 30 = some r →
      1 ≤ r.string_pos ∧ r.string_pos ≤ [65, 32, 66].length ∧
      r.array_pos
        = 30 + 30 * glyphCount (([65, 32, 66].drop 1).take (r.string_pos - 1)) ∧
      r.array_pos ≤ (emptyArray 120).length ∧
      r.vertexArray.length = (emptyArray 120).length ∧
      (∀ i, i < 30 ∨ r.array_pos ≤ i → r.vertexArray[i]? = (emptyArray 120)[i]?) ∧
      (∀ n st,
        stateAfter [65, 32, 66] demoFont demoMetrics n
        (initState (0, 0) (emptyArray 120) 1 30) = some st →
        st.arrayPos ≤ r.array_pos)) ∧
    (writeString [65, 32, 66] demoFont demoMetrics (0, 0) (emptyArray 120) 1 30 = none →
      demoFont.chars CHAR_CODES.QUESTION_MARK = none ∧
      ∃ n st, stateAfter [65, 32, 66] demoFont demoMetrics n
          (initState (0, 0) (emptyArray 120) 1 30) = some st ∧
        loopBody [65, 32, 66] demoFont demoMetrics st = none) ∧
    ((demoFont.chars CHAR_CODES.QUESTION_MARK).isSome →
      ∃ r, writeString [65, 32, 66] demoFont demoMetrics (0, 0) (emptyArray 120) 1 30 = some r) :=
  writeString_no_partial_glyph [65, 32, 66] demoFont demoMetrics (0, 0) (emptyArray 120) 1 30
    (by decide) (by decide)

/-- The call of the witness of C15, evaluated: it consumes the space and `B`. -/
theorem writeString_resumed_demo :
    (writeString [65, 32, 66] demoFont demoMetrics (0, 0) (emptyArray 120) 1 30).map
      (fun r => (r.string_pos, r.array_pos, r.vertexArray[29]?, r.vertexArray[30]?))
      = some (3, 60, some (0 : ℚ), some (3 : ℚ)) := by
  decide!

/-! ## `writeString`: the caller's start position -/

/-- C14 at the failing input: for the string newline, `A` laid out from `(0, 0)`
the newline lowers the caller's `pos` itself (`cpos` is the same array), so the
returned rect has `y = -26`, not the start `y = 0`, and the height
`pos[1] - cpos[1] + lineHeight` is one line height (26), not two; a leading
space moves `rect[0]` to 5. For `"A\\nB"` the rect starts at `(0, 0)` and the
height is `2 * lineHeight = 52`. -/
theorem writeString_rect_leading_newline :
    (writeString [10, 65] demoFont demoMetrics (0, 0) (emptyArray 120) 0 0).map
        (fun r => (r.rect, r.string_pos)) = some (Rect.mk 0 (-26) 0 26, 2) ∧
    (writeString [32, 65] demoFont demoMetrics (0, 0) (emptyArray 120) 0 0).map
        (fun r => (r.rect, r.string_pos)) = some (Rect.mk 5 0 (-5) 26, 2) ∧
    (writeString [65, 10, 66] demoFont demoMetrics (0, 0) (emptyArray 120) 0 0).map
        (fun r => (r.rect, r.string_pos)) = some (Rect.mk 0 0 12 52, 3) ∧
    demoMetrics.lineHeight = 26 := by
  decide!

/-- C18 at the failing input: appending a space to the empty string lowers the
returned width from `0` to `-5`: the space moves the caller's `pos[0]`, which
the width `xMax - pos[0]` subtracts, and `xMax` stays `0` without a newline. -/
theorem writeString_width_not_monotone :
    (writeString [] demoFont demoMetrics (0, 0) (emptyArray 120) 0 0).map
        (fun r => (r.rect.width, r.string_pos)) = some (0, 0) ∧
    (writeString ([] ++ [32]) demoFont demoMetrics (0, 0) (emptyArray 120) 0 0).map
        (fun r => (r.rect.width, r.string_pos)) = some (-5, 1) := by
  decide!

/-- C19 at the failing input: the string space, `A` laid out twice with the same
start-position array. The first call leaves the array at `(5, 0)`, so the
second call starts there: the left edge of `A` is `3` after the first call and
`8` after the second, the rects differ, and the array ends at `(10, 0)`. -/
theorem writeString_not_idempotent :
    (writeString [32, 65] demoFont demoMetrics (0, 0) (emptyArray 120) 0 0).map
        (fun r => (r.pos, r.rect, r.vertexArray[0]?))
      = some ((5, 0), Rect.mk 5 0 (-5) 26, some (3 : ℚ)) ∧
    ((writeString [32, 65] demoFont demoMetrics (0, 0) (emptyArray 120) 0 0).bind
        (fun r => writeString [32, 65] demoFont demoMetrics r.pos r.vertexArray 0 0)).map
        (fun r => (r.pos, r.rect, r.vertexArray[0]?))
      = some ((10, 0), Rect.mk 10 0 (-10) 26, some (8 : ℚ)) := by
  decide!

/-! ## `fontMetrics`: no validation of the font -/

/-- C16, refuted as stated: `fontMetrics` returns a value for a font with
`xHeight = 0` and `glyphHeight = 0`. At 20 pixels `capScale = 20`,
`lowScale = NaN` (from `0 / 0`), `lineHeight = 26` and
`scaleTexturePxToMetrics = Infinity` (from `1.2 / 0`). -/
theorem fontMetrics_no_validation :
    zeroFont.xHeight = 0 ∧ zeroFont.glyphHeight = 0 ∧
    fontMetricsJs zeroFont 20 0
      = some (FontMetricsJs.mk (JsNumber.finite 20) JsNumber.nan (JsNumber.finite 20)
          (JsNumber.finite 26) JsNumber.posInf) := by
  decide!

/-- C16, amended: `fontMetrics` validates nothing and returns a value for every
font and every finite pixel size and extra line gap, whether or not `xHeight`
and `glyphHeight` are zero; with `xHeight = 0` the field `lowScale` is `NaN`,
and with `glyphHeight = 0` the field `scaleTexturePxToMetrics` is `NaN` or an
infinity. -/
theorem fontMetrics_total (font : Font) (pixelSize moreLineGap : ℚ) :
    ∃ r, fontMetricsJs font pixelSize moreLineGap = some r ∧
      (font.xHeight = 0 → r.lowScale = JsNumber.nan) ∧
      (font.glyphHeight = 0 → r.scaleTexturePxToMetrics.isFinite = false) := by
  refine ⟨_, rfl, ?_, ?_⟩
  · intro h
    show jsDiv
      (jsRound (jsMul (JsNumber.finite font.xHeight) (jsRound (JsNumber.finite pixelSize))))
      (JsNumber.finite font.xHeight) = JsNumber.nan
    rw [h]
    simp only [jsRound, jsMul, zero_mul, ofRat_zero, mathRound_zero, Int.cast_zero, jsDiv,
      if_true]
  · intro h
    show (jsDiv (jsSub (JsNumber.finite 1) (JsNumber.finite font.descent))
      (JsNumber.finite font.glyphHeight)).isFinite = false
    rw [h]
    cases jsSub (JsNumber.finite 1) (JsNumber.finite font.descent) with
    | finite a =>
      simp only [jsDiv, if_true]
      split_ifs <;> rfl
    | nan => rfl
    | posInf => simp [jsDiv, JsNumber.isFinite]
    | negInf => simp [jsDiv, JsNumber.isFinite]

/-- A nonzero `glyphHeight` does not make the fields finite: with the smallest
positive double, `2 ^ -1074`, the quotient `1.2 / glyphHeight` overflows and
`scaleTexturePxToMetrics` is `Infinity`. -/
theorem fontMetrics_scale_overflow :
    (fontOfNumbers (1 / 2) (-1 / 5) (1 / 10) (Binary64.pow2 (-1074))).glyphHeight
      = Binary64.pow2 (-1074) ∧
    (fontMetricsJs (fontOfNumbers (1 / 2) (-1 / 5) (1 / 10) (Binary64.pow2 (-1074))) 20 0).map
      (fun r => r.scaleTexturePxToMetrics) = some JsNumber.posInf := by
  decide!

/-! ## The fragment shader: the discard threshold -/

/-- C17: the discard threshold of `main`. For every input, when the coverage
`alpha` (after `smoothstep` and the contrast power) is below `20/256` the
fragment is discarded, and when it is at least `20/256` the colour is
`mix(bg_color, font_color, channels)` with the fourth component 1. -/
theorem main_discard_threshold (f : Fragment) :
    (f.alpha < 20 / 256 → main f = none) ∧
    (20 / 256 ≤ f.alpha →
      main f = some (mix3 f.bg_color f.font_color
        (estimateSubpixelCoverage f.grad f.alpha f.subpixel_amount f.is_bgr f.is_vertical),
        1)) := by
  constructor
  · intro h
    simp [main, h]
  · intro h
    simp [main, not_lt.mpr h]

/-- The shader on a flat field: at the distance value `3/10` the coverage
`135/2662` is below the threshold and the fragment is discarded; at `1/2` the
coverage is `1/2` and the colour is the mean of background and font colour. -/
theorem main_demo :
    (demoFragment (3 / 10)).alpha = 135 / 2662 ∧ main (demoFragment (3 / 10)) = none ∧
    main (demoFragment (1 / 2)) = some (Vec3.mk (1 / 2) (1 / 2) (1 / 2), 1) := by
  decide!

/-! ## `render`: the subpixel selector -/

/-- C21 as stated fails: the value `"foo"` is none of the four patterns, yet
`render` sets `subpixel = 1` for it, with `isBgr = isVertical = false`, the
settings of `"rgb_horizontal"`; only `"off"` gives `subpixel = 0`. -/
theorem renderSubpixel_unrecognised :
    recognisedPattern "foo" = false ∧
      (renderSubpixel "foo").subpixel ≠ 0 ∧
      renderSubpixel "foo" = SubpixelSettings.mk 1 false false ∧
      renderSubpixel "rgb_horizontal" = SubpixelSettings.mk 1 false false ∧
      renderSubpixel "off" = SubpixelSettings.mk 0 false false := by
  decide!

/-- C21, amended: the mapping of `render` yields `subpixel = 0` exactly for the
value `"off"` and `subpixel = 1` for every other value; a value that is none of
the four patterns yields `isBgr = false` and `isVertical = false`. -/
theorem renderSubpixel_off (value : String) :
    ((renderSubpixel value).subpixel = 0 ↔ value = "off") ∧
    (value ≠ "off" → (renderSubpixel value).subpixel = 1) ∧
    (recognisedPattern value = false →
      (renderSubpixel value).isBgr = false ∧ (renderSubpixel value).isVertical = false) := by
  refine ⟨?_, ?_, ?_⟩
  · by_cases h : value = "off" <;> simp [renderSubpixel, h]
  · intro h
    simp [renderSubpixel, h]
  · intro h
    simp only [recognisedPattern, Bool.or_eq_false_iff, decide_eq_false_iff_not] at h
    obtain ⟨⟨⟨h1, h2⟩, h3⟩, h4⟩ := h
    simp [renderSubpixel, h2, h3, h4]

/-! ## `estimateSubpixelCoverage`: the order of the channels -/

theorem clamp01_mono {x y : ℚ} (h : x ≤ y) : clamp01 x ≤ clamp01 y := by
  unfold clamp01
  exact min_le_min (max_le_max h (le_refl _)) (le_refl _)

theorem clamp01_range (x : ℚ) : 0 ≤ clamp01 x ∧ clamp01 x ≤ 1 := by
  unfold clamp01
  exact ⟨le_min (le_max_right _ _) (by norm_num), min_le_right _ _⟩

theorem coverageOf_order (slope pc : ℚ) :
    (coverageOf slope pc false).b ≤ (coverageOf slope pc false).g ∧
    (coverageOf slope pc false).g ≤ (coverageOf slope pc false).r ∧
    (coverageOf slope pc true).r ≤ (coverageOf slope pc true).g ∧
    (coverageOf slope pc true).g ≤ (coverageOf slope pc true).b := by
  have ha := abs_nonneg slope
  simp only [coverageOf, Bool.false_eq_true, if_false, if_true]
  refine ⟨clamp01_mono ?_, clamp01_mono ?_, clamp01_mono ?_, clamp01_mono ?_⟩ <;> nlinarith

theorem coverageOf_zero_eq (pc : ℚ) (f : Bool) :
    (coverageOf 0 pc f).r = (coverageOf 0 pc f).g ∧ (coverageOf 0 pc f).g = (coverageOf 0 pc f).b := by
  simp [coverageOf]

theorem coverageOf_range (slope pc : ℚ) (f : Bool) :
    (0 ≤ (coverageOf slope pc f).r ∧ (coverageOf slope pc f).r ≤ 1) ∧
    (0 ≤ (coverageOf slope pc f).g ∧ (coverageOf slope pc f).g ≤ 1) ∧
    (0 ≤ (coverageOf slope pc f).b ∧ (coverageOf slope pc f).b ≤ 1) :=
  ⟨clamp01_range _, clamp01_range _, clamp01_range _⟩

theorem coverageOf_falling (slope pc : ℚ) (f : Bool) (h : f = false ∨ slope = 0) :
    (coverageOf slope pc f).falling := by
  rcases h with h | h
  · subst h
    exact ⟨(coverageOf_order slope pc).1, (coverageOf_order slope pc).2.1⟩
  · subst h
    obtain ⟨e1, e2⟩ := coverageOf_zero_eq pc f
    exact ⟨le_of_eq e2.symm, le_of_eq e1.symm⟩

theorem coverageOf_rising (slope pc : ℚ) (f : Bool) (h : f = true ∨ slope = 0) :
    (coverageOf slope pc f).rising := by
  rcases h with h | h
  · subst h
    exact ⟨(coverageOf_order slope pc).2.2.1, (coverageOf_order slope pc).2.2.2⟩
  · subst h
    obtain ⟨e1, e2⟩ := coverageOf_zero_eq pc f
    exact ⟨le_of_eq e1, le_of_eq e2⟩

/-- C22: the channel order of `estimateSubpixelCoverage`. For every pixel
coverage and every `subpixelLevel ≥ 0`: with a horizontal RGB pattern
`r ≥ g ≥ b` when `grad.x ≤ 0` and `b ≥ g ≥ r` when `grad.x ≥ 0`; with a
horizontal BGR pattern the reverse; with a vertical RGB pattern `b ≥ g ≥ r`
when `grad.y < 0`; and every channel lies in `[0, 1]`, for every pattern. -/
theorem estimateSubpixelCoverage_order (grad : ℚ × ℚ) (pc lvl : ℚ) (hl : 0 ≤ lvl) :
    (grad.1 ≤ 0 → (estimateSubpixelCoverage grad pc lvl false false).falling) ∧
    (0 ≤ grad.1 → (estimateSubpixelCoverage grad pc lvl false false).rising) ∧
    (grad.1 ≤ 0 → (estimateSubpixelCoverage grad pc lvl true false).rising) ∧
    (0 ≤ grad.1 → (estimateSubpixelCoverage grad pc lvl true false).falling) ∧
    (grad.2 < 0 → (estimateSubpixelCoverage grad pc lvl false true).rising) ∧
    (∀ isBgr isVertical,
      (0 ≤ (estimateSubpixelCoverage grad pc lvl isBgr isVertical).r ∧
        (estimateSubpixelCoverage grad pc lvl isBgr isVertical).r ≤ 1) ∧
      (0 ≤ (estimateSubpixelCoverage grad pc lvl isBgr isVertical).g ∧
        (estimateSubpixelCoverage grad pc lvl isBgr isVertical).g ≤ 1) ∧
      (0 ≤ (estimateSubpixelCoverage grad pc lvl isBgr isVertical).b ∧
        (estimateSubpixelCoverage grad pc lvl isBgr isVertical).b ≤ 1)) := by
  have hk : (0 : ℚ) ≤ 3 / 10 * lvl := by positivity
  simp only [estimateSubpixelCoverage_eq]
  refine ⟨?_, ?_, ?_, ?_, ?_, fun _ _ => coverageOf_range _ _ _⟩
  · intro hg
    have hs : slopeOf grad lvl false ≤ 0 := mul_nonpos_of_nonpos_of_nonneg hg hk
    apply coverageOf_falling
    left
    simp [flipOf, not_lt.mpr hs]
  · intro hg
    have hs : 0 ≤ slopeOf grad lvl false := mul_nonneg hg hk
    apply coverageOf_rising
    rcases eq_or_lt_of_le hs with h0 | hpos
    · right
      exact h0.symm
    · left
      simp [flipOf, hpos]
  · intro hg
    have hs : slopeOf grad lvl false ≤ 0 := mul_nonpos_of_nonpos_of_nonneg hg hk
    apply coverageOf_rising
    left
    simp [flipOf, not_lt.mpr hs]
  · intro hg
    have hs : 0 ≤ slopeOf grad lvl false := mul_nonneg hg hk
    apply coverageOf_falling
    rcases eq_or_lt_of_le hs with h0 | hpos
    · right
      exact h0.symm
    · left
      simp [flipOf, hpos]
  · intro hg
    have hs : slopeOf grad lvl true ≤ 0 := mul_nonpos_of_nonpos_of_nonneg (le_of_lt hg) hk
    apply coverageOf_rising
    rcases eq_or_lt_of_le hs with h0 | hneg
    · right
      exact h0
    · left
      simp [flipOf, hneg]

/-- Witness of C22: the gradient `(-1, -1)`, coverage `1/2`, level 1. -/
theorem estimateSubpixelCoverage_order_witness :
    (((-1 : ℚ), (-1 : ℚ)).1 ≤ 0 →
      (estimateSubpixelCoverage (-1, -1) (1 / 2) 1 false false).falling) ∧
    (0 ≤ ((-1 : ℚ), (-1 : ℚ)).1 →
      (estimateSubpixelCoverage (-1, -1) (1 / 2) 1 false false).rising) ∧
    (((-1 : ℚ), (-1 : ℚ)).1 ≤ 0 →
      (estimateSubpixelCoverage (-1, -1) (1 / 2) 1 true false).rising) ∧
    (0 ≤ ((-1 : ℚ), (-1 : ℚ)).1 →
      (estimateSubpixelCoverage (-1, -1) (1 / 2) 1 true false).falling) ∧
    (((-1 : ℚ), (-1 : ℚ)).2 < 0 →
      (estimateSubpixelCoverage (-1, -1) (1 / 2) 1 false true).rising) ∧
    (∀ isBgr isVertical,
      (0 ≤ (estimateSubpixelCoverage (-1, -1) (1 / 2) 1 isBgr isVertical).r ∧
        (estimateSubpixelCoverage (-1, -1) (1 / 2) 1 isBgr isVertical).r ≤ 1) ∧
      (0 ≤ (estimateSubpixelCoverage (-1, -1) (1 / 2) 1 isBgr isVertical).g ∧
        (estimateSubpixelCoverage (-1, -1) (1 / 2) 1 isBgr isVertical).g ≤ 1) ∧
      (0 ≤ (estimateSubpixelCoverage (-1, -1) (1 / 2) 1 isBgr isVertical).b ∧
        (estimateSubpixelCoverage (-1, -1) (1 / 2) 1 isBgr isVertical).b ≤ 1)) :=
  estimateSubpixelCoverage_order (-1, -1) (1 / 2) 1 (by norm_num)

/-- The channels at coverage `1/2` and level 1: an edge facing left, an edge
facing right, and an edge facing down on a vertical pattern. -/
theorem estimateSubpixelCoverage_demo :
    estimateSubpixelCoverage (-1, 0) (1 / 2) 1 false false = Vec3.mk (4 / 5) (1 / 2) (1 / 5) ∧
    estimateSubpixelCoverage (1, 0) (1 / 2) 1 false false = Vec3.mk (1 / 5) (1 / 2) (4 / 5) ∧
    estimateSubpixelCoverage (0, -1) (1 / 2) 1 false true = Vec3.mk (1 / 5) (1 / 2) (4 / 5) := by
  decide!

end WebglFonts
